import Mathlib

/-
  Formal model of the Orthrus Poker table hand engine (server.js, with the
  turn rotation of the latest revision of the file).  The mutable global
  STATE of the JavaScript source is embedded as an explicit Table value and
  every mutating routine becomes a pure state-passing function.  Socket/IO
  emission, CSV logging and the two timers are external effects that never
  touch the chip-relevant table state and are omitted.  Randomness (the
  Math.random shuffle) enters startHand as an explicit shuffled-deck
  parameter, and the pokersolver hand evaluator enters the settlement
  functions as an explicit strength oracle, both being external
  collaborators per the specification.  Cards and socket identifiers are
  modelled as Nat tokens; chip amounts are Nat (the source only ever
  produces non-negative integer chip amounts); the -1 index sentinels of
  the source are kept by using Int for seat-index fields.
-/

namespace PokerGame

inductive Stage where
  | lobby
  | preflop
  | flop
  | turn
  | river
  | showdown
deriving DecidableEq, Repr

/-- Player record, mirroring the fields of the objects in STATE.players:
id, name, socketId, seat, stack, inHand, folded, bet, cards, allIn,
committed. -/
structure Player where
  id : Nat
  name : Nat
  socketId : Option Nat
  seat : Nat
  stack : Nat
  inHand : Bool
  folded : Bool
  bet : Nat
  cards : List Nat
  allIn : Bool
  committed : Nat
deriving DecidableEq, Repr

/-- Pot entry produced by buildSidePotsPreview: amount and eligibleCount. -/
structure PreviewPot where
  amount : Nat
  eligibleCount : Nat
deriving DecidableEq, Repr

/-- Pot entry produced by buildSidePotsWithRefunds: amount and the Set of
eligible player ids (modelled as the list of ids, used only through
membership). -/
structure Pot where
  amount : Nat
  eligibleIds : List Nat
deriving DecidableEq, Repr

/-- The table STATE object (chip-relevant and control-flow fields; the
timer handles and log file handle are external resources and omitted). -/
structure Table where
  handId : Nat
  stage : Stage
  community : List Nat
  deck : List Nat
  players : List Player
  dealerBtn : Int
  currentPlayerIdx : Int
  pot : Nat
  minRaiseTo : Nat
  tableOpen : Bool
  hasStarted : Bool
  roundFirstIdx : Int
  hasBetOrRaise : Bool
  lastRaiserIdx : Int
  sidePotsPreview : List PreviewPot
deriving DecidableEq, Repr

def SMALL_BLIND : Nat := 25

def BIG_BLIND : Nat := 50

/-- Predicate for a live seat: p.inHand and not p.folded. -/
def aliveP (p : Player) : Bool := p.inHand && !p.folded

/-- Predicate for a seat that can still act: inHand, not folded, not allIn. -/
def canActP (p : Player) : Bool := p.inHand && !p.folded && !p.allIn

/-- Math.max over all seats of p.bet (bets are non-negative, and the
callers only use this with a non-empty player list, so folding from 0
agrees with the source). -/
def maxBetOf (ps : List Player) : Nat := (ps.map (fun p => p.bet)).foldl Nat.max 0

def sumStack (ps : List Player) : Nat := (ps.map (fun p => p.stack)).sum

def sumBet (ps : List Player) : Nat := (ps.map (fun p => p.bet)).sum

def sumCommitted (ps : List Player) : Nat := (ps.map (fun p => p.committed)).sum

/-- Chip mass of a table state: all stacks plus the swept pot plus the
street bets still standing in front of the seats. -/
def chipTotal (s : Table) : Nat := sumStack s.players + s.pot + sumBet s.players

/-- collectBetsToPot: pot += sum of bets; every bet set to 0. -/
def collectBetsToPot (s : Table) : Table :=
  { s with pot := s.pot + sumBet s.players,
           players := s.players.map (fun p => { p with bet := 0 }) }

/-- resetBets: live seats get bet = 0 (folded seats keep their last bet). -/
def resetBets (s : Table) : Table :=
  { s with players := s.players.map (fun p => if p.inHand && !p.folded then { p with bet := 0 } else p) }

/-- Generic wrapping search used to state facts about seat rotation: the
least offset j with k <= j < k + fuel such that the seat at index
(f + j) % length satisfies the predicate. -/
def scanOffset (pred : Player → Bool) (ps : List Player) (f : Nat) (k : Nat) : Nat → Option Nat
  | 0 => none
  | fuel + 1 =>
    match ps[(f + k) % ps.length]? with
    | some p => if pred p then some k else scanOffset pred ps f (k + 1) fuel
    | none => scanOffset pred ps f (k + 1) fuel

/-- Loop body of nextActivePlayer: for k = 1..n, test seat (fromIdx+k) % n
(JavaScript % is truncated remainder, hence Int.tmod; an out-of-range or
negative index yields undefined in the source and is skipped by the
p && guard). -/
def napAux (ps : List Player) (fromIdx : Int) (k : Nat) : Nat → Int
  | 0 => -1
  | fuel + 1 =>
    let i : Int := (fromIdx + k).tmod ps.length
    match (if 0 ≤ i then ps[i.toNat]? else none) with
    | some p => if aliveP p then i else napAux ps fromIdx (k + 1) fuel
    | none => napAux ps fromIdx (k + 1) fuel

/-- nextActivePlayer: next index after fromIdx (wrapping) whose seat is
inHand and not folded, or -1. -/
def nextActivePlayer (ps : List Player) (fromIdx : Int) : Int :=
  napAux ps fromIdx 1 ps.length

/-- playerIndexBySocket: findIndex by socketId. -/
def playerIndexBySocket (ps : List Player) (sid : Nat) : Option Nat :=
  ps.findIdx? (fun p => p.socketId = some sid)

/-- buildSidePotsPreview: non-mutating banded preview; a band is reported
only when at least two non-folded seats reach its level. -/
def buildSidePotsPreview (ps : List Player) : List PreviewPot :=
  let contributors := ps.filter (fun p => 0 < p.committed)
  if contributors.length = 0 then []
  else
    let levels := ((contributors.map (fun p => p.committed)).dedup).mergeSort (fun a b => a ≤ b)
    (levels.foldl (fun (acc : List PreviewPot × Nat) lvl =>
      let (pots, prev) := acc
      let band := lvl - prev
      if band = 0 then (pots, lvl)
      else
        let contributorsCount := (ps.filter (fun p => lvl ≤ p.committed)).length
        let eligibleCount := (ps.filter (fun p => p.inHand && !p.folded && lvl ≤ p.committed)).length
        if 2 ≤ eligibleCount then (pots ++ [⟨band * contributorsCount, eligibleCount⟩], lvl)
        else (pots, lvl)) ([], 0)).1

/-- Result triple of buildSidePotsWithRefunds; refundsById is the Map,
embedded as a total function that is 0 outside the stored keys. -/
structure SidePots where
  pots : List Pot
  refundsById : Nat → Nat
  totalRefund : Nat

/-- Map.set id (Map.get id + amt) on the refund map. -/
def bumpRefund (f : Nat → Nat) (id amt : Nat) : Nat → Nat :=
  fun j => if j = id then f id + amt else f j

/-- Loop body of buildSidePotsWithRefunds for one committed level: the
accumulator carries the result so far and prev. -/
def sidePotStep (ps : List Player) (acc : SidePots × Nat) (lvl : Nat) : SidePots × Nat :=
  let (r, prev) := acc
  let band := lvl - prev
  if band = 0 then (r, lvl)
  else
    match ps.filter (fun p => lvl ≤ p.committed) with
    | [sole] =>
      (⟨r.pots, bumpRefund r.refundsById sole.id band, r.totalRefund + band⟩, lvl)
    | contribs =>
      let eligible := ps.filter (fun p => p.inHand && !p.folded && lvl ≤ p.committed)
      if 1 ≤ eligible.length then
        (⟨r.pots ++ [⟨band * contribs.length, eligible.map (fun p => p.id)⟩], r.refundsById, r.totalRefund⟩, lvl)
      else
        (⟨r.pots, contribs.foldl (fun f c => bumpRefund f c.id band) r.refundsById,
          r.totalRefund + band * contribs.length⟩, lvl)

/-- Distinct committed levels of the contributors, sorted ascending. -/
def levelsOf (ps : List Player) : List Nat :=
  (((ps.filter (fun p => 0 < p.committed)).map (fun p => p.committed)).dedup).mergeSort (fun a b => a ≤ b)

/-- buildSidePotsWithRefunds: banded pots over all contributors, refunds
for bands reached by a single contributor and for bands with no eligible
claimant. -/
def buildSidePotsWithRefunds (ps : List Player) : SidePots :=
  if (ps.filter (fun p => 0 < p.committed)).length = 0 then ⟨[], fun _ => 0, 0⟩
  else ((levelsOf ps).foldl (sidePotStep ps) (⟨[], fun _ => 0, 0⟩, 0)).1

/-- One entry of the evaluateHands result: the fields of the
player-and-solved-hand pair that awardPot actually consumes (player id for
eligibility and mutation, seat for the remainder ordering, hand strength
for picking winners). -/
structure ResEntry where
  id : Nat
  seat : Nat
  strength : Nat
deriving DecidableEq, Repr

/-- evaluateHands: solve community ++ hole cards for each contender; the
strength oracle stands for the external pokersolver Hand.solve. -/
def evaluateHands (strength : List Nat → Nat) (community : List Nat) (contenders : List Player) : List ResEntry :=
  contenders.map (fun p => ⟨p.id, p.seat, strength (community ++ p.cards)⟩)

/-- Modelled from the spec: the hand-ranking collaborator (pokersolver
Hand.winners, external to this repository) returns the subset of the given
hands that is maximal, ties included. -/
def handWinners (elig : List ResEntry) : List ResEntry :=
  let maxS := (elig.map (fun r => r.strength)).foldl Nat.max 0
  elig.filter (fun r => r.strength = maxS)

/-- Stack increment of one chip for the (unique) player with the given id. -/
def bumpStackById (ps : List Player) (id : Nat) : List Player :=
  ps.map (fun p => if p.id = id then { p with stack := p.stack + 1 } else p)

/-- Remainder loop of awardPot: for i = 0..rem-1, one chip to
ordered[i % ordered.length]. -/
def chipLoop (ordered : List ResEntry) (i rem : Nat) (ps : List Player) : List Player :=
  if _h : i < rem then
    match ordered[i % ordered.length]? with
    | some r => chipLoop ordered (i + 1) rem (bumpStackById ps r.id)
    | none => ps
  else ps
termination_by rem - i

/-- awardPot: split the pot among the winning subset of the eligible
results; share is floored and the remainder goes one chip at a time to
winners by ascending seat. -/
def awardPot (ps : List Player) (results : List ResEntry) (pot : Pot) : List Player :=
  if (results.filter (fun r => pot.eligibleIds.contains r.id)).length = 0 then ps
  else
    let winnerPlayers := handWinners (results.filter (fun r => pot.eligibleIds.contains r.id))
    let share := pot.amount / winnerPlayers.length
    let remainder := pot.amount - share * winnerPlayers.length
    let ps2 := ps.map (fun p => if winnerPlayers.any (fun w => w.id = p.id) then { p with stack := p.stack + share } else p)
    let ordered := winnerPlayers.mergeSort (fun a b => a.seat ≤ b.seat)
    chipLoop ordered 0 remainder ps2

/-- finishHand: sweep bets, then either hand the whole pot to a single
live seat, or apply the side-pot refunds and award every pot, then drop
busted seats.  In the source the refund loop walks the Map and mutates the
found player object; with the distinct uuid ids this equals adding
refundsById p.id to every stack. -/
def finishHand (strength : List Nat → Nat) (s : Table) : Table :=
  let s := collectBetsToPot s
  let alive := s.players.filter aliveP
  let s :=
    if alive.length = 1 then
      { s with players := s.players.map (fun p => if aliveP p then { p with stack := p.stack + s.pot } else p),
               pot := 0 }
    else if 1 < alive.length then
      let r := buildSidePotsWithRefunds s.players
      let s1 :=
        if 0 < r.totalRefund then
          { s with players := s.players.map (fun p => { p with stack := p.stack + r.refundsById p.id }),
                   pot := s.pot - r.totalRefund }
        else s
      let results := evaluateHands strength s1.community (s1.players.filter aliveP)
      let s2 := r.pots.foldl (fun t pot => { t with players := awardPot t.players results pot }) s1
      { s2 with pot := 0 }
    else s
  { s with players := s.players.filter (fun p => 0 < p.stack), sidePotsPreview := [] }

def nextStage : Stage → Stage
  | .preflop => .flop
  | .flop => .turn
  | .turn => .river
  | .river => .showdown
  | _ => .showdown

/-- Deck pop: the source uses Array.pop, taking the last element.  On an
empty deck the source would push undefined; that situation is unreachable
(at most 20 cards are drawn per hand) and the model leaves the state
unchanged there. -/
def dealOne (s : Table) : Table :=
  match s.deck.getLast? with
  | some c => { s with deck := s.deck.dropLast, community := s.community ++ [c] }
  | none => s

def dealN (s : Table) : Nat → Table
  | 0 => s
  | n + 1 => dealN (dealOne s) n

/-- dealCommunity: burn one, then deal n to the board. -/
def dealCommunity (n : Nat) (s : Table) : Table :=
  dealN { s with deck := s.deck.dropLast } n

/-- advanceStage: jump to settlement when at most one live seat remains,
otherwise sweep bets, move to the next street (or settle from the river),
deal the board cards and reset the street bookkeeping. -/
def advanceStage (strength : List Nat → Nat) (s : Table) : Table :=
  let alive := s.players.filter aliveP
  if alive.length ≤ 1 then finishHand strength { s with stage := .showdown }
  else
    let s := collectBetsToPot s
    let s := { s with stage := nextStage s.stage }
    if s.stage = .showdown then finishHand strength s
    else
      let s := if s.stage = .flop then dealCommunity 3 s else s
      let s := if s.stage = .turn ∨ s.stage = .river then dealCommunity 1 s else s
      let s := resetBets s
      let s := { s with minRaiseTo := BIG_BLIND }
      let rfi := nextActivePlayer s.players s.dealerBtn
      { s with roundFirstIdx := rfi, currentPlayerIdx := rfi,
               hasBetOrRaise := false, lastRaiserIdx := -1,
               sidePotsPreview := buildSidePotsPreview s.players }

/-- Seat test of the rotation while-loop: true when the loop must keep
skipping (index -1, or seat not inHand, folded, or allIn).  An index that
is non-negative but out of range would crash the source; it is unreachable
and treated as a skip. -/
def rotBad (ps : List Player) (i : Int) : Bool :=
  match (if 0 ≤ i then ps[i.toNat]? else none) with
  | some p => !(canActP p)
  | none => true

/-- While-loop of turnRotateOrAdvance: skip all-in (and gone) seats,
counting hops, giving up after players.length hops. -/
def rotLoop (ps : List Player) (cur : Int) (nextIdx : Int) (hops : Nat) : Nat → Int × Nat
  | 0 => (nextIdx, hops)
  | fuel + 1 =>
    if hops < ps.length && (nextIdx == -1 || rotBad ps nextIdx) then
      rotLoop ps cur (nextActivePlayer ps (if nextIdx == -1 then cur else nextIdx)) (hops + 1) fuel
    else (nextIdx, hops)

/-- turnRotateOrAdvance of the latest revision: settle when at most one
live seat remains; advance immediately when no seat can act; a lone
actable seat closes the street once it has matched the maximum bet; with
two or more actable seats the street closes when a bet or raise has been
matched by all of them, or, in an unraised street, when the turn returns
to roundFirstIdx. -/
def turnRotateOrAdvance (strength : List Nat → Nat) (s : Table) : Table :=
  let alive := s.players.filter aliveP
  if alive.length ≤ 1 then finishHand strength { s with stage := .showdown }
  else
    let maxBet := maxBetOf s.players
    match s.players.filter canActP with
    | [] => advanceStage strength s
    | [lone] =>
      if lone.bet = maxBet then advanceStage strength s
      else { s with currentPlayerIdx := (s.players.findIdx canActP : Nat) }
    | canAct =>
      let allMatched := canAct.all (fun p => p.bet == maxBet)
      if s.hasBetOrRaise && allMatched then advanceStage strength s
      else
        let start := nextActivePlayer s.players s.currentPlayerIdx
        let res := rotLoop s.players s.currentPlayerIdx start 0 s.players.length
        if res.1 == -1 || s.players.length ≤ res.2 then advanceStage strength s
        else
          let s1 := { s with currentPlayerIdx := res.1 }
          if !s.hasBetOrRaise && s1.currentPlayerIdx == s.roundFirstIdx then advanceStage strength s1
          else s1

inductive Action where
  | fold
  | check
  | call
  | bet (amount : Nat)
  | raise (amount : Nat)
deriving DecidableEq, Repr

/-- handleAction: validate the acting seat, then apply fold / check /
call / bet / raise exactly as the source does.  Logging and broadcasting
are external effects and omitted. -/
def handleAction (strength : List Nat → Nat) (s : Table) (sid : Nat) (a : Action) : Table :=
  match playerIndexBySocket s.players sid with
  | none => s
  | some idx =>
    if (idx : Int) ≠ s.currentPlayerIdx then s
    else
      match s.players[idx]? with
      | none => s
      | some p =>
        if !(p.inHand && !p.folded) then s
        else
          let toCall := maxBetOf s.players - p.bet
          match a with
          | .fold =>
            let s := { s with players := s.players.set idx { p with folded := true } }
            let s := { s with sidePotsPreview := buildSidePotsPreview s.players }
            turnRotateOrAdvance strength s
          | .check =>
            if toCall = 0 then
              turnRotateOrAdvance strength { s with sidePotsPreview := buildSidePotsPreview s.players }
            else s
          | .call =>
            let callAmt := min toCall p.stack
            let p1 := { p with stack := p.stack - callAmt, bet := p.bet + callAmt,
                               committed := p.committed + callAmt }
            let p1 := if p1.stack = 0 then { p1 with allIn := true } else p1
            let s := { s with players := s.players.set idx p1 }
            turnRotateOrAdvance strength { s with sidePotsPreview := buildSidePotsPreview s.players }
          | .bet amount | .raise amount =>
            let minRaise := max s.minRaiseTo BIG_BLIND
            let raiseTo := max minRaise amount
            let toPay := toCall + raiseTo
            let pay := min toPay p.stack
            let p1 := { p with stack := p.stack - pay, bet := p.bet + pay,
                               committed := p.committed + pay }
            let p1 := if p1.stack = 0 then { p1 with allIn := true } else p1
            let s := { s with players := s.players.set idx p1,
                              minRaiseTo := raiseTo, hasBetOrRaise := true,
                              lastRaiserIdx := (idx : Int) }
            let s := { s with sidePotsPreview := buildSidePotsPreview s.players }
            { s with currentPlayerIdx := nextActivePlayer s.players idx }

/-- postBlind: pay min(amt, stack); note the source does not touch allIn
here. -/
def postBlind (idx : Nat) (amt : Nat) (s : Table) : Table :=
  match s.players[idx]? with
  | none => s
  | some p =>
    let blind := min amt p.stack
    let p1 := { p with stack := p.stack - blind, bet := blind, committed := p.committed + blind }
    { s with players := s.players.set idx p1 }

/-- Per-seat reset performed at the top of startHand. -/
def resetSeatFields (p : Player) : Player :=
  { p with inHand := 0 < p.stack, folded := false, allIn := false,
           bet := 0, committed := 0, cards := [] }

/-- One round-robin pass dealing one card to every seat. -/
def dealRound (s : Table) : Table :=
  (List.range s.players.length).foldl (fun t i =>
    match t.players[i]? with
    | some p =>
      match t.deck.getLast? with
      | some c => { t with deck := t.deck.dropLast,
                           players := t.players.set i { p with cards := p.cards ++ [c] } }
      | none => t
    | none => t) s

/-- startHand: reset the seats, and, when at least two seats are present,
begin the next hand — advance the button, deal two cards each, post the
blinds and set the street bookkeeping.  The freshly shuffled deck is a
parameter because Math.random is external. -/
def startHand (shuffledDeck : List Nat) (s : Table) : Table :=
  let s := { s with players := s.players.map resetSeatFields }
  if s.players.length < 2 then s
  else
    let s := { s with hasStarted := true, stage := .preflop, handId := s.handId + 1,
                      community := [], pot := 0, minRaiseTo := BIG_BLIND, deck := shuffledDeck }
    let n : Int := s.players.length
    let s := { s with dealerBtn := (s.dealerBtn + 1 + n).tmod n }
    let s := dealRound (dealRound s)
    let sbIdx := ((s.dealerBtn + 1).tmod n).toNat
    let bbIdx := ((s.dealerBtn + 2).tmod n).toNat
    let s := postBlind sbIdx SMALL_BLIND s
    let s := postBlind bbIdx BIG_BLIND s
    let s := { s with currentPlayerIdx := (s.dealerBtn + 3).tmod n,
                      roundFirstIdx := (s.dealerBtn + 3).tmod n,
                      hasBetOrRaise := false, lastRaiserIdx := -1 }
    { s with sidePotsPreview := buildSidePotsPreview s.players }

/-- Projection record sent to the seat itself (the me field). -/
structure MeView where
  id : Nat
  name : Nat
  seat : Nat
  stack : Nat
  inHand : Bool
  folded : Bool
  bet : Nat
  cards : List Nat
deriving DecidableEq, Repr

/-- Projection record for every seat in the others list: public fields
only, and in particular no cards field. -/
structure OtherView where
  id : Nat
  name : Nat
  seat : Nat
  stack : Nat
  inHand : Bool
  bet : Nat
  isMe : Bool
deriving DecidableEq, Repr

/-- Per-seat outbound snapshot. -/
structure PlayerView where
  handId : Nat
  stage : Stage
  community : List Nat
  pot : Nat
  dealerBtn : Int
  currentPlayerIdx : Int
  currentPlayerId : Option Nat
  minRaiseTo : Nat
  me : MeView
  others : List OtherView
deriving DecidableEq, Repr

/-- Optional id of the seat the turn is on (players[currentPlayerIdx]?.id,
null for a missing index; the uuid ids are never falsy). -/
def currentPlayerIdOf (s : Table) : Option Nat :=
  (if 0 ≤ s.currentPlayerIdx then s.players[s.currentPlayerIdx.toNat]? else none).map (fun p => p.id)

/-- sanitizeForPlayer: the outbound projection for seat idx; hole cards
appear only inside me. -/
def sanitizeForPlayer (s : Table) (idx : Nat) : Option PlayerView :=
  match s.players[idx]? with
  | none => none
  | some me =>
    some { handId := s.handId, stage := s.stage,
           community := if s.stage = .lobby then [] else s.community,
           pot := s.pot, dealerBtn := s.dealerBtn,
           currentPlayerIdx := s.currentPlayerIdx,
           currentPlayerId := currentPlayerIdOf s,
           minRaiseTo := s.minRaiseTo,
           me := ⟨me.id, me.name, me.seat, me.stack, me.inHand, me.folded, me.bet, me.cards⟩,
           others := s.players.mapIdx (fun i p =>
             ⟨p.id, p.name, p.seat, p.stack, p.inHand && !p.folded, p.bet, decide (i = idx)⟩) }

/-- Table with the hole cards of seat j replaced. -/
def withCards (s : Table) (j : Nat) (cs : List Nat) : Table :=
  { s with players := s.players.mapIdx (fun i p => if i = j then { p with cards := cs } else p) }

/-- Follows the wording of the spec (turn rotation): the next actor after
cur is the next seat index, wrapping, that is inHand, not folded and not
allIn. -/
def specNextActor (ps : List Player) (cur : Nat) : Option Nat :=
  (scanOffset canActP ps cur 1 ps.length).map (fun k => (cur + k) % ps.length)

/-- Follows the wording of the spec (round-completion rule): with canAct
the seats that are inHand, not folded, not allIn — an empty canAct (or at
most one live seat) completes the street at once; a single actable seat
completes it once its bet equals the table maximum bet; with two or more,
the street completes once hasBetOrRaise holds and every canAct bet equals
the maximum, or, in an unraised street, once the turn returns to
roundFirstIdx. -/
def specRoundCompleteB (s : Table) : Bool :=
  let alive := s.players.filter aliveP
  let canAct := s.players.filter canActP
  let maxBet := maxBetOf s.players
  if alive.length ≤ 1 then true
  else if canAct.length = 0 then true
  else if canAct.length = 1 then canAct.all (fun p => p.bet == maxBet)
  else if s.hasBetOrRaise then canAct.all (fun p => p.bet == maxBet)
  else
    match specNextActor s.players s.currentPlayerIdx.toNat with
    | some j => (j : Int) == s.roundFirstIdx
    | none => false

/-- Total chips of the emitted pots. -/
def potsAmount (pots : List Pot) : Nat := (pots.map (fun p => p.amount)).sum

/-- Band-by-band chip mass of a level walk: for every level the band width
times the number of seats whose committed reaches the level. -/
def bandSum (ps : List Player) (prev : Nat) : List Nat → Nat
  | [] => 0
  | l :: ls => (l - prev) * (ps.filter (fun p => l ≤ p.committed)).length + bandSum ps l ls

/-- Total refund of a refund map over the seats of the table. -/
def refundsTotal (f : Nat → Nat) (ps : List Player) : Nat :=
  (ps.map (fun p => f p.id)).sum

/-- Stack of the (first) player carrying the given id, 0 if absent. -/
def stackOfId (ps : List Player) (id : Nat) : Nat :=
  ((ps.find? (fun p => p.id = id)).map (fun p => p.stack)).getD 0

/-- Trivial strength oracle used in the concrete examples. -/
def str0 : List Nat → Nat := fun _ => 0

/-- Concrete seat builder for the example states. -/
def mkP (id seat stack : Nat) (inH fold aIn : Bool) (bet com : Nat) : Player :=
  ⟨id, id, some id, seat, stack, inH, fold, bet, [], aIn, com⟩

/-- Example state: heads-up preflop, blinds posted, small blind (seat 0,
socket 1) to act facing 25 to call. -/
def exC2 : Table :=
  ⟨1, .preflop, [], [], [mkP 1 0 475 true false false 25 25, mkP 2 1 450 true false false 50 50],
   0, 0, 0, BIG_BLIND, false, true, 0, false, -1, []⟩

/-- Example state: three live seats on the flop, bets 50/50/50, a bet has
occurred; the street must be complete. -/
def exC3a : Table :=
  ⟨1, .flop, [], [], [mkP 1 0 450 true false false 50 100, mkP 2 1 450 true false false 50 100,
   mkP 3 2 450 true false false 50 100], 0, 2, 150, BIG_BLIND, false, true, 1, true, 0, []⟩

/-- Example state: three live seats on the flop, bets 50/50/0 with seat 2
still to act; the street must not be complete. -/
def exC3b : Table :=
  ⟨1, .flop, [], [], [mkP 1 0 450 true false false 50 100, mkP 2 1 450 true false false 50 100,
   mkP 3 2 500 true false false 0 50], 0, 1, 150, BIG_BLIND, false, true, 1, true, 0, []⟩

/-- Example ledger: seat 1 committed 500 alone above the 100 level of
seat 2. -/
def exC4ps : List Player :=
  [mkP 1 0 0 true false false 0 500, mkP 2 1 300 true false false 0 100]

/-- Example ledger: two folded seats committed 300, one live seat
committed 100 — the 100..300 band has contributors but no live claimant. -/
def exC5ps : List Player :=
  [mkP 1 0 0 true true false 0 300, mkP 2 1 0 true true false 0 300,
   mkP 3 2 100 true false false 0 100]

/-- Example state: a 25-chip stack posting the 50 big blind. -/
def exC6 : Table :=
  ⟨1, .preflop, [], [], [mkP 1 0 25 true false false 0 0], 0, 0, 0, BIG_BLIND, true, true, 0, false, -1, []⟩

/-- Example showdown inputs: two tied winners, indivisible pot of 101. -/
def exC7ps : List Player := [mkP 1 0 0 true false false 0 200, mkP 2 1 0 true false false 0 200]

def exC7res : List ResEntry := [⟨1, 0, 5⟩, ⟨2, 1, 5⟩]

def exC7pot : Pot := ⟨101, [1, 2]⟩

/-- Example state: a single seated player with stale hand fields; a start
request must not start a hand here. -/
def exC8 : Table :=
  ⟨3, .lobby, [], [], [mkP 7 2 100 false true true 5 40], 0, -1, 0, BIG_BLIND, true, true, -1, false, -1, []⟩

/-- Example state: heads-up, seat 0 (stack 30) facing a bet of 50 and
raising to 500 — far beyond its stack. -/
def exC10 : Table :=
  ⟨1, .preflop, [], [], [mkP 1 0 30 true false false 0 0, mkP 2 1 450 true false false 50 50],
   0, 0, 0, BIG_BLIND, false, true, 1, false, -1, []⟩

/-- Seat test at a wrapping offset, used to reason about rotation: does
the seat at index (f + j) % length satisfy the predicate. -/
def predAt (pred : Player → Bool) (ps : List Player) (f j : Nat) : Bool :=
  match ps[(f + j) % ps.length]? with
  | some p => pred p
  | none => false

/- ------------------------------------------------------------------ -/
/- Lemmas and theorems.                                                -/
/- ------------------------------------------------------------------ -/

lemma sum_map_ite_length (q : Player → Bool) (k : Nat) (ps : List Player) :
    (ps.map (fun p => if q p then k else 0)).sum = k * (ps.filter q).length := by
  induction ps with
  | nil => simp
  | cons a t ih =>
    by_cases h : q a <;> simp [h, ih, Nat.mul_succ] <;> omega

lemma sum_map_add_pt (f g : Player → Nat) (ps : List Player) :
    (ps.map (fun p => f p + g p)).sum = (ps.map f).sum + (ps.map g).sum := by
  induction ps with
  | nil => simp
  | cons a t ih => simp [ih]; omega

lemma bandSum_eq (ps : List Player) :
    ∀ (levels : List Nat) (prev : Nat), List.Pairwise (· < ·) levels →
      (∀ x ∈ levels, prev < x) →
      (∀ p ∈ ps, prev < p.committed → p.committed ∈ levels) →
      bandSum ps prev levels = (ps.map (fun p => p.committed - prev)).sum := by
  intro levels
  induction levels with
  | nil =>
    intro prev _ _ hcov
    simp only [bandSum]
    symm
    apply List.sum_eq_zero
    intro x hx
    obtain ⟨p, hp, rfl⟩ := List.mem_map.mp hx
    have hle : ¬ prev < p.committed := fun hlt => by simpa using hcov p hp hlt
    omega
  | cons l ls ih =>
    intro prev hpair hgt hcov
    have hpl : prev < l := hgt l (by simp)
    have htail : bandSum ps l ls = (ps.map (fun p => p.committed - l)).sum := by
      apply ih l (List.Pairwise.of_cons hpair)
      · intro x hx
        exact (List.pairwise_cons.mp hpair).1 x hx
      · intro p hp hlt
        have hmem := hcov p hp (lt_trans hpl hlt)
        rcases List.mem_cons.mp hmem with h | h
        · omega
        · exact h
    simp only [bandSum, htail]
    rw [← sum_map_ite_length (fun p => l ≤ p.committed) (l - prev) ps, ← sum_map_add_pt]
    congr 1
    apply List.map_congr_left
    intro p hp
    by_cases hlc : l ≤ p.committed
    · simp [hlc]
      omega
    · have hnp : ¬ prev < p.committed := by
        intro hgt2
        rcases List.mem_cons.mp (hcov p hp hgt2) with h | h
        · omega
        · have := (List.pairwise_cons.mp hpair).1 _ h
          omega
      simp [hlc]
      omega

lemma potsAmount_append (xs : List Pot) (p : Pot) :
    potsAmount (xs ++ [p]) = potsAmount xs + p.amount := by
  simp [potsAmount]

lemma sidePotStep_snd (ps : List Player) (acc : SidePots × Nat) (lvl : Nat) :
    (sidePotStep ps acc lvl).2 = lvl := by
  rcases acc with ⟨r, prev⟩
  simp only [sidePotStep]
  split
  · rfl
  · split
    · rfl
    · split <;> rfl

lemma sidePotStep_total (ps : List Player) (r : SidePots) (prev lvl : Nat) :
    potsAmount (sidePotStep ps (r, prev) lvl).1.pots + (sidePotStep ps (r, prev) lvl).1.totalRefund
      = potsAmount r.pots + r.totalRefund
        + (lvl - prev) * (ps.filter (fun p => lvl ≤ p.committed)).length := by
  simp only [sidePotStep]
  split
  · next hband => rw [hband]; simp
  · split
    · next sole heq => rw [heq]; simp; omega
    · next heq =>
      split
      · simp [potsAmount_append]
        omega
      · simp
        omega

lemma sidePots_fold_total (ps : List Player) :
    ∀ (levels : List Nat) (r : SidePots) (prev : Nat),
      potsAmount (levels.foldl (sidePotStep ps) (r, prev)).1.pots
        + (levels.foldl (sidePotStep ps) (r, prev)).1.totalRefund
      = potsAmount r.pots + r.totalRefund + bandSum ps prev levels := by
  intro levels
  induction levels with
  | nil => intro r prev; simp [bandSum]
  | cons l ls ih =>
    intro r prev
    have hstep := sidePotStep_total ps r prev l
    have hacc : sidePotStep ps (r, prev) l = ((sidePotStep ps (r, prev) l).1, l) :=
      Prod.ext_iff.mpr ⟨rfl, sidePotStep_snd ps (r, prev) l⟩
    rw [List.foldl_cons, hacc, ih]
    simp only [bandSum]
    omega

lemma levelsOf_sorted (ps : List Player) : List.Pairwise (· < ·) (levelsOf ps) := by
  have htrans : ∀ (a b c : Nat), (decide (a ≤ b)) = true → decide (b ≤ c) = true →
      decide (a ≤ c) = true := by
    intro a b c h1 h2
    simp only [decide_eq_true_eq] at *
    omega
  have htotal : ∀ (a b : Nat), (decide (a ≤ b) || decide (b ≤ a)) = true := by
    intro a b
    simp only [Bool.or_eq_true, decide_eq_true_eq]
    omega
  have hperm := List.mergeSort_perm
    (((ps.filter (fun p => 0 < p.committed)).map (fun p => p.committed)).dedup)
    (fun a b => a ≤ b)
  have hnd : (levelsOf ps).Nodup := by
    unfold levelsOf
    exact (hperm.nodup_iff).mpr (List.nodup_dedup _)
  have hple : List.Pairwise (fun a b : Nat => a ≤ b) (levelsOf ps) := by
    have hp := List.sorted_mergeSort htrans htotal
      (((ps.filter (fun p => 0 < p.committed)).map (fun p => p.committed)).dedup)
    exact hp.imp (by intro a b h; simpa using h)
  exact (hple.and hnd).imp (fun h => lt_of_le_of_ne h.1 h.2)

lemma levelsOf_mem (ps : List Player) (c : Nat) :
    c ∈ levelsOf ps ↔ 0 < c ∧ ∃ p ∈ ps, p.committed = c := by
  unfold levelsOf
  rw [(List.mergeSort_perm _ _).mem_iff, List.mem_dedup, List.mem_map]
  constructor
  · rintro ⟨p, hp, rfl⟩
    have hp2 := List.mem_filter.mp hp
    exact ⟨by simpa using hp2.2, p, hp2.1, rfl⟩
  · rintro ⟨hc, p, hp, rfl⟩
    exact ⟨p, List.mem_filter.mpr ⟨hp, by simpa using hc⟩, rfl⟩

lemma sidePots_total (ps : List Player) :
    potsAmount (buildSidePotsWithRefunds ps).pots + (buildSidePotsWithRefunds ps).totalRefund
      = sumCommitted ps := by
  unfold buildSidePotsWithRefunds
  split
  · next hlen =>
    have hnil : ps.filter (fun p => 0 < p.committed) = [] := List.length_eq_zero.mp hlen
    have hall := List.filter_eq_nil_iff.mp hnil
    simp only [potsAmount, List.map_nil, List.sum_nil, Nat.zero_add]
    symm
    apply List.sum_eq_zero
    intro x hx
    obtain ⟨p, hp, rfl⟩ := List.mem_map.mp hx
    have := hall p hp
    simp only [decide_eq_true_eq] at this
    omega
  · rw [sidePots_fold_total]
    have hbs := bandSum_eq ps (levelsOf ps) 0 (levelsOf_sorted ps)
      (fun x hx => ((levelsOf_mem ps x).mp hx).1)
      (fun p hp h0 => (levelsOf_mem ps p.committed).mpr ⟨h0, p, hp, rfl⟩)
    simp only [potsAmount, List.map_nil, List.sum_nil, Nat.zero_add, hbs, sumCommitted]
    simp

/-- C1: for every seat ledger, the settlement side-pot computation
conserves chips — the total amount of the returned pots plus the total
refund equals the total committed over all seats. -/
theorem sidePots_conservation (ps : List Player) :
    potsAmount (buildSidePotsWithRefunds ps).pots + (buildSidePotsWithRefunds ps).totalRefund
      = sumCommitted ps := sidePots_total ps

lemma count_id_sum (ps : List Player) (a k : Nat) :
    (ps.map (fun p => if p.id = a then k else 0)).sum = k * (ps.map (fun p => p.id)).count a := by
  induction ps with
  | nil => simp
  | cons p t ih =>
    by_cases h : p.id = a <;>
      simp [h, ih, List.count_cons, Nat.mul_add, Nat.mul_succ] <;> omega

lemma count_id_one (ps : List Player) (a : Nat) (hnd : (ps.map (fun p => p.id)).Nodup)
    (hmem : a ∈ ps.map (fun p => p.id)) : (ps.map (fun p => p.id)).count a = 1 :=
  List.count_eq_one_of_mem hnd hmem

lemma bumpRefund_total (ps : List Player) (f : Nat → Nat) (a amt : Nat)
    (hmem : a ∈ ps.map (fun p => p.id)) (hnd : (ps.map (fun p => p.id)).Nodup) :
    refundsTotal (bumpRefund f a amt) ps = refundsTotal f ps + amt := by
  unfold refundsTotal bumpRefund
  have hmc : ps.map (fun p => if p.id = a then f a + amt else f p.id)
      = ps.map (fun p => f p.id + (if p.id = a then amt else 0)) := by
    apply List.map_congr_left
    intro p _
    by_cases h : p.id = a <;> simp [h]
  rw [hmc, sum_map_add_pt, count_id_sum, count_id_one ps a hnd hmem]
  omega

lemma foldBump_total (ps : List Player) (hnd : (ps.map (fun p => p.id)).Nodup) :
    ∀ (cs : List Player) (f : Nat → Nat) (amt : Nat),
      (∀ c ∈ cs, c.id ∈ ps.map (fun p => p.id)) →
      refundsTotal (cs.foldl (fun f c => bumpRefund f c.id amt) f) ps
        = refundsTotal f ps + amt * cs.length := by
  intro cs
  induction cs with
  | nil => intro f amt _; simp
  | cons c t ih =>
    intro f amt hsub
    rw [List.foldl_cons, ih _ _ (fun x hx => hsub x (List.mem_cons_of_mem c hx)),
      bumpRefund_total ps f c.id amt (hsub c (List.mem_cons_self c t)) hnd]
    simp [Nat.mul_succ]
    omega

lemma mem_of_filter_eq_single {pred : Player → Bool} {ps : List Player} {sole : Player}
    (heq : ps.filter pred = [sole]) : sole ∈ ps := by
  have : sole ∈ ps.filter pred := by rw [heq]; simp
  exact (List.mem_filter.mp this).1

lemma sidePotStep_refund_inv (ps : List Player) (hnd : (ps.map (fun p => p.id)).Nodup)
    (r : SidePots) (prev lvl : Nat)
    (hinv : refundsTotal r.refundsById ps = r.totalRefund) :
    refundsTotal (sidePotStep ps (r, prev) lvl).1.refundsById ps
      = (sidePotStep ps (r, prev) lvl).1.totalRefund := by
  simp only [sidePotStep]
  split
  · exact hinv
  · have hsub : ∀ c ∈ ps.filter (fun p => lvl ≤ p.committed), c.id ∈ ps.map (fun p => p.id) :=
      fun c hc => List.mem_map_of_mem _ (List.mem_filter.mp hc).1
    rcases hfil : ps.filter (fun p => lvl ≤ p.committed) with _ | ⟨a, _ | ⟨b, t⟩⟩
    · simp only [hfil]
      split
      · exact hinv
      · simpa using hinv
    · simp only [hfil]
      have ha : a.id ∈ ps.map (fun p => p.id) := hsub a (by rw [hfil]; simp)
      rw [bumpRefund_total ps _ a.id _ ha hnd, hinv]
    · simp only [hfil]
      split
      · exact hinv
      · rw [foldBump_total ps hnd]
        · rw [hinv]
        · intro c hc
          exact hsub c (by rw [hfil]; exact hc)

lemma sidePots_fold_refund_inv (ps : List Player) (hnd : (ps.map (fun p => p.id)).Nodup) :
    ∀ (levels : List Nat) (r : SidePots) (prev : Nat),
      refundsTotal r.refundsById ps = r.totalRefund →
      refundsTotal (levels.foldl (sidePotStep ps) (r, prev)).1.refundsById ps
        = (levels.foldl (sidePotStep ps) (r, prev)).1.totalRefund := by
  intro levels
  induction levels with
  | nil => intro r prev h; exact h
  | cons l ls ih =>
    intro r prev h
    have hacc : sidePotStep ps (r, prev) l = ((sidePotStep ps (r, prev) l).1, l) :=
      Prod.ext_iff.mpr ⟨rfl, sidePotStep_snd ps (r, prev) l⟩
    rw [List.foldl_cons, hacc]
    exact ih _ _ (sidePotStep_refund_inv ps hnd r prev l h)

lemma sidePots_refundsTotal (ps : List Player) (hnd : (ps.map (fun p => p.id)).Nodup) :
    refundsTotal (buildSidePotsWithRefunds ps).refundsById ps
      = (buildSidePotsWithRefunds ps).totalRefund := by
  unfold buildSidePotsWithRefunds
  split
  · simp [refundsTotal]
  · exact sidePots_fold_refund_inv ps hnd (levelsOf ps) _ 0 (by simp [refundsTotal])

lemma sidePotStep_pots_elig (ps : List Player) (r : SidePots) (prev lvl : Nat)
    (hinv : ∀ pot ∈ r.pots, ∃ p ∈ ps, aliveP p = true ∧ p.id ∈ pot.eligibleIds) :
    ∀ pot ∈ (sidePotStep ps (r, prev) lvl).1.pots,
      ∃ p ∈ ps, aliveP p = true ∧ p.id ∈ pot.eligibleIds := by
  simp only [sidePotStep]
  split
  · exact hinv
  · split
    · exact hinv
    · next heq =>
      split
      · next hel =>
        intro pot hpot
        simp only at hpot
        rcases List.mem_append.mp hpot with h | h
        · exact hinv pot h
        · have hpoteq : pot = ⟨(lvl - prev) * (ps.filter (fun p => lvl ≤ p.committed)).length,
              (ps.filter (fun p => p.inHand && !p.folded && lvl ≤ p.committed)).map (fun p => p.id)⟩ := by
            simpa [heq] using h
          have hne : ps.filter (fun p => p.inHand && !p.folded && lvl ≤ p.committed) ≠ [] := by
            intro hnil
            rw [hnil] at hel
            simp at hel
          obtain ⟨q, hq⟩ := List.exists_mem_of_ne_nil _ hne
          have hq2 := List.mem_filter.mp hq
          refine ⟨q, hq2.1, ?_, ?_⟩
          · have := hq2.2
            simp only [Bool.and_eq_true, decide_eq_true_eq] at this
            simp [aliveP, this.1.1, this.1.2]
          · rw [hpoteq]
            exact List.mem_map_of_mem _ hq
      · exact hinv

lemma sidePots_pots_elig (ps : List Player) :
    ∀ pot ∈ (buildSidePotsWithRefunds ps).pots,
      ∃ p ∈ ps, aliveP p = true ∧ p.id ∈ pot.eligibleIds := by
  unfold buildSidePotsWithRefunds
  split
  · simp
  · have hgen : ∀ (levels : List Nat) (r : SidePots) (prev : Nat),
        (∀ pot ∈ r.pots, ∃ p ∈ ps, aliveP p = true ∧ p.id ∈ pot.eligibleIds) →
        ∀ pot ∈ (levels.foldl (sidePotStep ps) (r, prev)).1.pots,
          ∃ p ∈ ps, aliveP p = true ∧ p.id ∈ pot.eligibleIds := by
      intro levels
      induction levels with
      | nil => intro r prev h; exact h
      | cons l ls ih =>
        intro r prev h
        have hacc : sidePotStep ps (r, prev) l = ((sidePotStep ps (r, prev) l).1, l) :=
          Prod.ext_iff.mpr ⟨rfl, sidePotStep_snd ps (r, prev) l⟩
        rw [List.foldl_cons, hacc]
        exact ih _ _ (sidePotStep_pots_elig ps r prev l h)
    exact hgen (levelsOf ps) _ 0 (by simp)

lemma bumpStackById_ids (ps : List Player) (a : Nat) :
    (bumpStackById ps a).map (fun p => p.id) = ps.map (fun p => p.id) := by
  unfold bumpStackById
  rw [List.map_map]
  apply List.map_congr_left
  intro p _
  by_cases h : p.id = a <;> simp [h]

lemma bumpStackById_sum (ps : List Player) (a : Nat)
    (hmem : a ∈ ps.map (fun p => p.id)) (hnd : (ps.map (fun p => p.id)).Nodup) :
    sumStack (bumpStackById ps a) = sumStack ps + 1 := by
  unfold sumStack bumpStackById
  rw [List.map_map]
  have hmc : (ps.map ((fun p => p.stack) ∘ fun p => if p.id = a then { p with stack := p.stack + 1 } else p))
      = ps.map (fun p => p.stack + (if p.id = a then 1 else 0)) := by
    apply List.map_congr_left
    intro p _
    by_cases h : p.id = a <;> simp [h]
  rw [hmc, sum_map_add_pt, count_id_sum, count_id_one ps a hnd hmem]

lemma chipLoop_sum :
    ∀ (d : Nat) (ordered : List ResEntry) (i rem : Nat) (ps : List Player), d = rem - i →
      ordered ≠ [] → (∀ r ∈ ordered, r.id ∈ ps.map (fun p => p.id)) →
      (ps.map (fun p => p.id)).Nodup →
      sumStack (chipLoop ordered i rem ps) = sumStack ps + (rem - i) := by
  intro d
  induction d with
  | zero =>
    intro ordered i rem ps hd hne hsub hnd
    have hge : ¬ i < rem := by omega
    unfold chipLoop
    rw [dif_neg hge]
    omega
  | succ d ih =>
    intro ordered i rem ps hd hne hsub hnd
    have hi : i < rem := by omega
    have hlt : i % ordered.length < ordered.length :=
      Nat.mod_lt _ (List.length_pos.mpr hne)
    unfold chipLoop
    rw [dif_pos hi, List.getElem?_eq_getElem hlt]
    have hrmem : ordered[i % ordered.length] ∈ ordered := List.getElem_mem hlt
    have hridmem : (ordered[i % ordered.length]).id ∈ ps.map (fun p => p.id) :=
      hsub _ hrmem
    rw [ih ordered (i + 1) rem (bumpStackById ps (ordered[i % ordered.length]).id)
      (by omega) hne
      (by rw [bumpStackById_ids]; exact hsub)
      (by rw [bumpStackById_ids]; exact hnd)]
    rw [bumpStackById_sum ps _ hridmem hnd]
    omega

lemma chipLoop_ids :
    ∀ (d : Nat) (ordered : List ResEntry) (i rem : Nat) (ps : List Player), d = rem - i →
      (chipLoop ordered i rem ps).map (fun p => p.id) = ps.map (fun p => p.id) := by
  intro d
  induction d with
  | zero =>
    intro ordered i rem ps hd
    have hge : ¬ i < rem := by omega
    unfold chipLoop
    rw [dif_neg hge]
  | succ d ih =>
    intro ordered i rem ps hd
    by_cases hi : i < rem
    · unfold chipLoop
      rw [dif_pos hi]
      cases hml : ordered[i % ordered.length]? with
      | none => rfl
      | some r => rw [ih ordered (i + 1) rem _ (by omega), bumpStackById_ids]
    · unfold chipLoop
      rw [dif_neg hi]

lemma foldl_max_mem_cons : ∀ (t : List Nat) (a : Nat), t.foldl Nat.max a ∈ a :: t := by
  intro t
  induction t with
  | nil => intro a; simp
  | cons b t ih =>
    intro a
    rw [List.foldl_cons]
    rcases List.mem_cons.mp (ih (Nat.max a b)) with h | h
    · rw [h]
      rcases Nat.le_total a b with hab | hba
      · simp [Nat.max_eq_right hab]
      · simp [Nat.max_eq_left hba]
    · simp [h]

lemma handWinners_ne_nil (elig : List ResEntry) (hne : elig ≠ []) : handWinners elig ≠ [] := by
  unfold handWinners
  have hmapne : elig.map (fun r => r.strength) ≠ [] := by
    simpa using hne
  rcases hm : elig.map (fun r => r.strength) with _ | ⟨a, t⟩
  · exact absurd hm hmapne
  · have hmem : (elig.map (fun r => r.strength)).foldl Nat.max 0 ∈ elig.map (fun r => r.strength) := by
      rw [hm, List.foldl_cons]
      have hz : Nat.max 0 a = a := by simp [Nat.max_def]
      rw [hz]
      exact foldl_max_mem_cons t a
    obtain ⟨r, hr, hreq⟩ := List.mem_map.mp hmem
    intro hnil
    have : r ∈ elig.filter (fun r0 =>
        r0.strength = (elig.map (fun r1 => r1.strength)).foldl Nat.max 0) :=
      List.mem_filter.mpr ⟨hr, by simpa using hreq⟩
    rw [hm] at hnil
    rw [← hm] at hnil
    rw [hnil] at this
    simp at this

lemma winners_sublist_ids (results : List ResEntry) (q : ResEntry → Bool) :
    ((results.filter q).map (fun r => r.id)).Sublist (results.map (fun r => r.id)) :=
  List.Sublist.map _ (List.filter_sublist results)

lemma sum_map_any_winners :
    ∀ (W : List ResEntry) (ps : List Player) (k : Nat),
      ((W.map (fun r => r.id)).Nodup) →
      (∀ w ∈ W, w.id ∈ ps.map (fun p => p.id)) →
      (ps.map (fun p => p.id)).Nodup →
      (ps.map (fun p => if W.any (fun w => w.id = p.id) then k else 0)).sum = k * W.length := by
  intro W
  induction W with
  | nil => intro ps k _ _ _; simp
  | cons w W ih =>
    intro ps k hWnd hWsub hnd
    rw [List.map_cons, List.nodup_cons] at hWnd
    have hwid : w.id ∉ W.map (fun r => r.id) := hWnd.1
    have hmc : ps.map (fun p => if (w :: W).any (fun v => v.id = p.id) then k else 0)
        = ps.map (fun p => (if p.id = w.id then k else 0)
            + (if W.any (fun v => v.id = p.id) then k else 0)) := by
      apply List.map_congr_left
      intro p _
      by_cases h1 : p.id = w.id
      · have h2 : ¬ (W.any (fun v => v.id = p.id) = true) := by
          intro hany
          obtain ⟨v, hv, hveq⟩ := List.any_eq_true.mp hany
          apply hwid
          have hv2 : v.id = p.id := by simpa using hveq
          rw [← h1, ← hv2]
          exact List.mem_map_of_mem _ hv
        have hone : ((w :: W).any (fun v => v.id = p.id)) = true := by
          rw [List.any_cons]
          have hw : (decide (w.id = p.id)) = true := decide_eq_true h1.symm
          rw [hw, Bool.true_or]
        rw [if_pos hone, if_pos h1, if_neg h2]
        omega
      · have hw : (decide (w.id = p.id)) = false := by
          simp only [decide_eq_false_iff_not]
          exact fun hswap => h1 hswap.symm
        rw [List.any_cons, hw, Bool.false_or, if_neg h1, Nat.zero_add]
    rw [hmc, sum_map_add_pt, count_id_sum,
      count_id_one ps w.id hnd (hWsub w (List.mem_cons_self w W)),
      ih ps k hWnd.2
        (fun v hv => hWsub v (List.mem_cons_of_mem w hv)) hnd]
    simp [Nat.mul_succ]
    omega

lemma awardPot_ids (ps : List Player) (results : List ResEntry) (pot : Pot) :
    (awardPot ps results pot).map (fun p => p.id) = ps.map (fun p => p.id) := by
  unfold awardPot
  split
  · rfl
  · simp only []
    rw [chipLoop_ids _ _ 0 _ _ rfl, List.map_map]
    apply List.map_congr_left
    intro p _
    simp only [Function.comp_apply]
    by_cases h : ((handWinners (results.filter (fun r => pot.eligibleIds.contains r.id))).any
        (fun w => w.id = p.id)) = true
    · rw [if_pos h]
    · rw [if_neg h]

lemma awardPot_sum (ps : List Player) (results : List ResEntry) (pot : Pot)
    (hnd : (ps.map (fun p => p.id)).Nodup)
    (hresnd : (results.map (fun r => r.id)).Nodup)
    (hressub : ∀ r ∈ results, r.id ∈ ps.map (fun p => p.id))
    (helig : ∃ r ∈ results, pot.eligibleIds.contains r.id = true) :
    sumStack (awardPot ps results pot) = sumStack ps + pot.amount := by
  unfold awardPot
  have heligne : results.filter (fun r => pot.eligibleIds.contains r.id) ≠ [] := by
    obtain ⟨r, hr, hc⟩ := helig
    intro hnil
    have : r ∈ results.filter (fun r => pot.eligibleIds.contains r.id) :=
      List.mem_filter.mpr ⟨hr, hc⟩
    rw [hnil] at this
    simp at this
  have hlenne : ¬ (results.filter (fun r => pot.eligibleIds.contains r.id)).length = 0 := by
    simpa [List.length_eq_zero] using heligne
  rw [if_neg hlenne]
  simp only []
  have hWne : handWinners (results.filter (fun r => pot.eligibleIds.contains r.id)) ≠ [] :=
    handWinners_ne_nil _ heligne
  have hWsubres : ∀ w ∈ handWinners (results.filter (fun r => pot.eligibleIds.contains r.id)),
      w ∈ results := by
    intro w hw
    unfold handWinners at hw
    exact List.mem_of_mem_filter (List.mem_of_mem_filter hw)
  have hWnd : ((handWinners (results.filter (fun r => pot.eligibleIds.contains r.id))).map
      (fun r => r.id)).Nodup := by
    unfold handWinners
    exact List.Nodup.sublist
      (List.Sublist.map _ ((List.filter_sublist _).trans (List.filter_sublist _))) hresnd
  set W := handWinners (results.filter (fun r => pot.eligibleIds.contains r.id)) with hW
  have hWlen : 0 < W.length := List.length_pos.mpr hWne
  set share := pot.amount / W.length with hshare
  have hshle : share * W.length ≤ pot.amount := Nat.div_mul_le_self _ _
  set ps2 := ps.map (fun p => if W.any (fun w => w.id = p.id) then { p with stack := p.stack + share } else p) with hps2
  have hps2ids : ps2.map (fun p => p.id) = ps.map (fun p => p.id) := by
    rw [hps2, List.map_map]
    apply List.map_congr_left
    intro p _
    simp only [Function.comp_apply]
    by_cases h : (W.any (fun w => w.id = p.id)) = true
    · rw [if_pos h]
    · rw [if_neg h]
  have hps2sum : sumStack ps2 = sumStack ps + share * W.length := by
    rw [hps2]
    unfold sumStack
    rw [List.map_map]
    have hmc : (ps.map ((fun p => p.stack) ∘ fun p =>
        if W.any (fun w => w.id = p.id) then { p with stack := p.stack + share } else p))
        = ps.map (fun p => p.stack + (if W.any (fun w => w.id = p.id) then share else 0)) := by
      apply List.map_congr_left
      intro p _
      simp only [Function.comp_apply]
      by_cases h : (W.any (fun w => w.id = p.id)) = true
      · rw [if_pos h, if_pos h]
      · rw [if_neg h, if_neg h]
        omega
    rw [hmc, sum_map_add_pt,
      sum_map_any_winners W ps share hWnd (fun w hw => hressub w (hWsubres w hw)) hnd]
  have hpermW : (W.mergeSort (fun a b => a.seat ≤ b.seat)).Perm W := List.mergeSort_perm _ _
  have hordne : W.mergeSort (fun a b => a.seat ≤ b.seat) ≠ [] := by
    intro hnil
    have := hpermW.length_eq
    rw [hnil] at this
    simp at this
    omega
  rw [chipLoop_sum ((pot.amount - share * W.length) - 0) _ 0 _ _ rfl hordne
    (fun r hr => by rw [hps2ids]; exact hressub r (hWsubres r (hpermW.mem_iff.mp hr)))
    (by rw [hps2ids]; exact hnd)]
  rw [hps2sum]
  omega

lemma sum_map_set (f : Player → Nat) :
    ∀ (ps : List Player) (i : Nat) (a p : Player), ps[i]? = some p →
      (((ps.set i a).map f).sum + f p = (ps.map f).sum + f a) := by
  intro ps
  induction ps with
  | nil => intro i a p hp; simp at hp
  | cons q t ih =>
    intro i a p hp
    cases i with
    | zero =>
      simp at hp
      subst hp
      simp only [List.set, List.map_cons, List.sum_cons]
      omega
    | succ j =>
      simp at hp
      have := ih j a p hp
      simp only [List.set, List.map_cons, List.sum_cons]
      omega

lemma map_set_congr (f : Player → Nat) :
    ∀ (ps : List Player) (i : Nat) (a p : Player), ps[i]? = some p → f a = f p →
      (ps.set i a).map f = ps.map f := by
  intro ps
  induction ps with
  | nil => intro i a p hp _; simp at hp
  | cons q t ih =>
    intro i a p hp hfa
    cases i with
    | zero =>
      simp at hp
      subst hp
      simp only [List.set, List.map_cons, hfa]
    | succ j =>
      simp at hp
      simp only [List.set, List.map_cons, ih j a p hp hfa]

lemma sumStack_bonus (ps : List Player) (q : Player → Bool) (k : Nat) :
    sumStack (ps.map (fun p => if q p then { p with stack := p.stack + k } else p))
      = sumStack ps + k * (ps.filter q).length := by
  unfold sumStack
  rw [List.map_map]
  have hmc : (ps.map ((fun p => p.stack) ∘ fun p => if q p then { p with stack := p.stack + k } else p))
      = ps.map (fun p => p.stack + (if q p then k else 0)) := by
    apply List.map_congr_left
    intro p _
    simp only [Function.comp_apply]
    by_cases h : q p = true
    · rw [if_pos h, if_pos h]
    · rw [if_neg h, if_neg h]
      omega
  rw [hmc, sum_map_add_pt, sum_map_ite_length]

lemma sumStack_refund (ps : List Player) (g : Nat → Nat) :
    sumStack (ps.map (fun p => { p with stack := p.stack + g p.id }))
      = sumStack ps + refundsTotal g ps := by
  unfold sumStack refundsTotal
  rw [List.map_map]
  have hmc : (ps.map ((fun p => p.stack) ∘ fun p => { p with stack := p.stack + g p.id }))
      = ps.map (fun p => p.stack + g p.id) := rfl
  rw [hmc, sum_map_add_pt]

lemma sum_filter_le (f : Player → Nat) (q : Player → Bool) (ps : List Player) :
    ((ps.filter q).map f).sum ≤ (ps.map f).sum := by
  induction ps with
  | nil => simp
  | cons p t ih =>
    by_cases h : q p = true <;> simp [h] <;> omega

lemma sumStack_filter_pos (ps : List Player) :
    sumStack (ps.filter (fun p => 0 < p.stack)) = sumStack ps := by
  unfold sumStack
  induction ps with
  | nil => simp
  | cons p t ih =>
    by_cases h : 0 < p.stack
    · simp [h, ih]
    · have hz : p.stack = 0 := by omega
      simp [h, ih, hz]

lemma sumBet_filter_zero (ps : List Player) (q : Player → Bool) (h : sumBet ps = 0) :
    sumBet (ps.filter q) = 0 := by
  have := sum_filter_le (fun p => p.bet) q ps
  unfold sumBet at *
  omega

lemma bumpStackById_bets (ps : List Player) (a : Nat) :
    (bumpStackById ps a).map (fun p => p.bet) = ps.map (fun p => p.bet) := by
  unfold bumpStackById
  rw [List.map_map]
  apply List.map_congr_left
  intro p _
  by_cases h : p.id = a <;> simp [h]

lemma chipLoop_bets :
    ∀ (d : Nat) (ordered : List ResEntry) (i rem : Nat) (ps : List Player), d = rem - i →
      (chipLoop ordered i rem ps).map (fun p => p.bet) = ps.map (fun p => p.bet) := by
  intro d
  induction d with
  | zero =>
    intro ordered i rem ps hd
    have hge : ¬ i < rem := by omega
    unfold chipLoop
    rw [dif_neg hge]
  | succ d ih =>
    intro ordered i rem ps hd
    by_cases hi : i < rem
    · unfold chipLoop
      rw [dif_pos hi]
      cases hml : ordered[i % ordered.length]? with
      | none => rfl
      | some r => rw [ih ordered (i + 1) rem _ (by omega), bumpStackById_bets]
    · unfold chipLoop
      rw [dif_neg hi]

lemma awardPot_bets (ps : List Player) (results : List ResEntry) (pot : Pot) :
    (awardPot ps results pot).map (fun p => p.bet) = ps.map (fun p => p.bet) := by
  unfold awardPot
  split
  · rfl
  · simp only []
    rw [chipLoop_bets _ _ 0 _ _ rfl, List.map_map]
    apply List.map_congr_left
    intro p _
    simp only [Function.comp_apply]
    by_cases h : ((handWinners (results.filter (fun r => pot.eligibleIds.contains r.id))).any
        (fun w => w.id = p.id)) = true
    · rw [if_pos h]
    · rw [if_neg h]

lemma foldl_award_table :
    ∀ (pots : List Pot) (t : Table) (results : List ResEntry),
      pots.foldl (fun t pot => { t with players := awardPot t.players results pot }) t
        = { t with players := pots.foldl (fun ps pot => awardPot ps results pot) t.players } := by
  intro pots
  induction pots with
  | nil => intro t results; rfl
  | cons pot pots ih =>
    intro t results
    rw [List.foldl_cons, List.foldl_cons, ih]

lemma awardFoldPlayers :
    ∀ (pots : List Pot) (ps : List Player) (results : List ResEntry),
      (ps.map (fun p => p.id)).Nodup →
      ((results.map (fun r => r.id)).Nodup) →
      (∀ r ∈ results, r.id ∈ ps.map (fun p => p.id)) →
      (∀ pot ∈ pots, ∃ r ∈ results, pot.eligibleIds.contains r.id = true) →
      sumStack (pots.foldl (fun ps pot => awardPot ps results pot) ps)
          = sumStack ps + potsAmount pots
        ∧ (pots.foldl (fun ps pot => awardPot ps results pot) ps).map (fun p => p.id)
          = ps.map (fun p => p.id)
        ∧ (pots.foldl (fun ps pot => awardPot ps results pot) ps).map (fun p => p.bet)
          = ps.map (fun p => p.bet) := by
  intro pots
  induction pots with
  | nil => intro ps results _ _ _ _; refine ⟨by simp [potsAmount], rfl, rfl⟩
  | cons pot pots ih =>
    intro ps results hnd hrnd hrsub helig
    have hids := awardPot_ids ps results pot
    have hbets := awardPot_bets ps results pot
    have hsum := awardPot_sum ps results pot hnd hrnd hrsub
      (helig pot (List.mem_cons_self pot pots))
    have hrec := ih (awardPot ps results pot) results
      (by rw [hids]; exact hnd) hrnd
      (fun r hr => by rw [hids]; exact hrsub r hr)
      (fun q hq => helig q (List.mem_cons_of_mem pot hq))
    refine ⟨?_, ?_, ?_⟩
    · rw [List.foldl_cons, hrec.1, hsum]
      simp [potsAmount]
      omega
    · rw [List.foldl_cons, hrec.2.1, hids]
    · rw [List.foldl_cons, hrec.2.2, hbets]

lemma map_stackmod_ids (g : Player → Nat) (ps : List Player) :
    ((ps.map (fun p => { p with stack := g p })).map (fun p => p.id)) = ps.map (fun p => p.id) := by
  rw [List.map_map]
  rfl

lemma map_stackmod_bets (g : Player → Nat) (ps : List Player) :
    ((ps.map (fun p => { p with stack := g p })).map (fun p => p.bet)) = ps.map (fun p => p.bet) := by
  rw [List.map_map]
  rfl

lemma collect_ids (s : Table) :
    (collectBetsToPot s).players.map (fun p => p.id) = s.players.map (fun p => p.id) := by
  unfold collectBetsToPot
  rw [List.map_map]
  exact List.map_congr_left (fun p _ => rfl)

lemma collect_committed (s : Table) :
    sumCommitted (collectBetsToPot s).players = sumCommitted s.players := by
  unfold collectBetsToPot sumCommitted
  rw [List.map_map]
  exact congrArg List.sum (List.map_congr_left (fun p _ => rfl))

lemma collect_stack (s : Table) :
    sumStack (collectBetsToPot s).players = sumStack s.players := by
  unfold collectBetsToPot sumStack
  rw [List.map_map]
  exact congrArg List.sum (List.map_congr_left (fun p _ => rfl))

lemma collect_bets (s : Table) : sumBet (collectBetsToPot s).players = 0 := by
  unfold collectBetsToPot sumBet
  rw [List.map_map]
  apply List.sum_eq_zero
  intro x hx
  obtain ⟨p, _, rfl⟩ := List.mem_map.mp hx
  rfl

lemma collect_pot (s : Table) : (collectBetsToPot s).pot = s.pot + sumBet s.players := rfl

lemma collect_chipTotal (s : Table) : chipTotal (collectBetsToPot s) = chipTotal s := by
  unfold chipTotal
  rw [collect_stack, collect_bets, collect_pot]
  omega

lemma filterPos_total (P : List Player) (potv : Nat) (hb : sumBet P = 0) :
    sumStack (P.filter (fun p => 0 < p.stack)) + potv
      + sumBet (P.filter (fun p => 0 < p.stack)) = sumStack P + potv := by
  rw [sumStack_filter_pos, sumBet_filter_zero _ _ hb]
  omega

lemma finishHand_conserves (f : List Nat → Nat) (s : Table)
    (hnd : (s.players.map (fun p => p.id)).Nodup)
    (hcom : sumCommitted s.players = s.pot + sumBet s.players) :
    chipTotal (finishHand f s) = chipTotal s := by
  unfold finishHand
  simp only []
  set s1 := collectBetsToPot s with hs1
  have h1ids : s1.players.map (fun p => p.id) = s.players.map (fun p => p.id) := collect_ids s
  have h1nd : (s1.players.map (fun p => p.id)).Nodup := by rw [h1ids]; exact hnd
  have h1bets : sumBet s1.players = 0 := collect_bets s
  have h1com : sumCommitted s1.players = s1.pot := by
    rw [collect_committed s, collect_pot s, hcom]
  have h1chip : chipTotal s1 = chipTotal s := collect_chipTotal s
  rw [← h1chip]
  unfold chipTotal
  by_cases hone : (s1.players.filter aliveP).length = 1
  · rw [if_pos hone]
    have hb2 : sumBet (s1.players.map (fun p =>
        if aliveP p then { p with stack := p.stack + s1.pot } else p)) = 0 := by
      unfold sumBet at h1bets ⊢
      rw [List.map_map]
      have hmc : (s1.players.map ((fun p => p.bet) ∘ fun p =>
          if aliveP p then { p with stack := p.stack + s1.pot } else p))
          = s1.players.map (fun p => p.bet) := by
        apply List.map_congr_left
        intro p _
        simp only [Function.comp_apply]
        by_cases h : aliveP p = true
        · rw [if_pos h]
        · rw [if_neg h]
      rw [hmc, h1bets]
    have hstep := filterPos_total (s1.players.map (fun p =>
        if aliveP p then { p with stack := p.stack + s1.pot } else p)) 0 hb2
    have hfin : sumStack (s1.players.map (fun p =>
        if aliveP p then { p with stack := p.stack + s1.pot } else p)) + 0
        = sumStack s1.players + s1.pot + sumBet s1.players := by
      rw [sumStack_bonus, hone, h1bets]
      omega
    exact hstep.trans hfin
  · rw [if_neg hone]
    by_cases hmany : 1 < (s1.players.filter aliveP).length
    · rw [if_pos hmany]
      simp only []
      set r := buildSidePotsWithRefunds s1.players with hrdef
      have hrsum : potsAmount r.pots + r.totalRefund = sumCommitted s1.players :=
        sidePots_total s1.players
      have hrle : r.totalRefund ≤ s1.pot := by omega
      have helig0 := sidePots_pots_elig s1.players
      set s2 := if 0 < r.totalRefund then
          { s1 with players := s1.players.map (fun p => { p with stack := p.stack + r.refundsById p.id }),
                    pot := s1.pot - r.totalRefund }
        else s1 with hs2
      have h2ids : s2.players.map (fun p => p.id) = s1.players.map (fun p => p.id) := by
        rw [hs2]
        split
        · exact map_stackmod_ids _ _
        · rfl
      have h2bets : sumBet s2.players = 0 := by
        rw [hs2]
        split
        · unfold sumBet
          rw [map_stackmod_bets]
          exact h1bets
        · exact h1bets
      have h2nd : (s2.players.map (fun p => p.id)).Nodup := by rw [h2ids]; exact h1nd
      have h2sum : sumStack s2.players + s2.pot = sumStack s1.players + s1.pot := by
        rw [hs2]
        split
        · next hpos =>
          simp only []
          rw [sumStack_refund, sidePots_refundsTotal s1.players h1nd]
          have hco : (buildSidePotsWithRefunds s1.players).totalRefund = r.totalRefund := by
            rw [hrdef]
          rw [hco]
          omega
        · rfl
      have h2pot : s2.pot = s1.pot - r.totalRefund := by
        rw [hs2]
        split
        · rfl
        · next hnpos =>
          have hz : r.totalRefund = 0 := by omega
          omega
      have h2elig : ∀ pot ∈ r.pots, ∃ p ∈ s2.players, aliveP p = true ∧ p.id ∈ pot.eligibleIds := by
        intro pot hpot
        obtain ⟨p, hp, hpa, hpe⟩ := helig0 pot hpot
        rw [hs2]
        split
        · exact ⟨{ p with stack := p.stack + r.refundsById p.id },
            List.mem_map_of_mem _ hp, hpa, hpe⟩
        · exact ⟨p, hp, hpa, hpe⟩
      set results := evaluateHands f s2.community (s2.players.filter aliveP) with hres
      have hresids : results.map (fun q => q.id)
          = (s2.players.filter aliveP).map (fun p => p.id) := by
        rw [hres]
        unfold evaluateHands
        rw [List.map_map]
        exact List.map_congr_left (fun p _ => rfl)
      have hrnd : (results.map (fun q => q.id)).Nodup := by
        rw [hresids]
        exact List.Nodup.sublist (List.Sublist.map _ (List.filter_sublist _)) h2nd
      have hrsub : ∀ q ∈ results, q.id ∈ s2.players.map (fun p => p.id) := by
        intro q hq
        have hq2 : q.id ∈ results.map (fun q => q.id) := List.mem_map_of_mem _ hq
        rw [hresids] at hq2
        obtain ⟨p, hp, hpe⟩ := List.mem_map.mp hq2
        rw [← hpe]
        exact List.mem_map_of_mem _ (List.mem_of_mem_filter hp)
      have hpelig : ∀ pot ∈ r.pots, ∃ q ∈ results, pot.eligibleIds.contains q.id = true := by
        intro pot hpot
        obtain ⟨p, hp, hpa, hpe⟩ := h2elig pot hpot
        refine ⟨⟨p.id, p.seat, f (s2.community ++ p.cards)⟩, ?_, ?_⟩
        · rw [hres]
          unfold evaluateHands
          exact List.mem_map_of_mem _ (List.mem_filter.mpr ⟨hp, hpa⟩)
        · exact List.elem_eq_true_of_mem hpe
      rw [foldl_award_table]
      obtain ⟨hfs, hfi, hfb⟩ := awardFoldPlayers r.pots s2.players results h2nd hrnd hrsub hpelig
      have hfbets : sumBet (r.pots.foldl (fun ps pot => awardPot ps results pot) s2.players) = 0 := by
        unfold sumBet
        rw [hfb]
        exact h2bets
      have hstep := filterPos_total
        (r.pots.foldl (fun ps pot => awardPot ps results pot) s2.players) 0 hfbets
      have hfin : sumStack (r.pots.foldl (fun ps pot => awardPot ps results pot) s2.players) + 0
          = sumStack s1.players + s1.pot + sumBet s1.players := by
        rw [hfs, h1bets]
        omega
      exact hstep.trans hfin
    · rw [if_neg hmany]
      have hstep := filterPos_total s1.players s1.pot h1bets
      have hfin : sumStack s1.players + s1.pot
          = sumStack s1.players + s1.pot + sumBet s1.players := by
        rw [h1bets]
        omega
      exact hstep.trans hfin

/-- Stage is untouched by settlement. -/
lemma finishHand_stage (f : List Nat → Nat) (s : Table) : (finishHand f s).stage = s.stage := by
  unfold finishHand
  simp only []
  split
  · rfl
  · split
    · rw [foldl_award_table]
      split
      · rfl
      · rfl
    · rfl

lemma dealOne_fields (s : Table) :
    (dealOne s).players = s.players ∧ (dealOne s).pot = s.pot ∧ (dealOne s).stage = s.stage := by
  unfold dealOne
  split <;> exact ⟨rfl, rfl, rfl⟩

lemma dealN_fields :
    ∀ (n : Nat) (s : Table),
      (dealN s n).players = s.players ∧ (dealN s n).pot = s.pot ∧ (dealN s n).stage = s.stage := by
  intro n
  induction n with
  | zero => intro s; exact ⟨rfl, rfl, rfl⟩
  | succ m ih =>
    intro s
    have h1 := dealOne_fields s
    have h2 := ih (dealOne s)
    unfold dealN
    exact ⟨h2.1.trans h1.1, h2.2.1.trans h1.2.1, h2.2.2.trans h1.2.2⟩

lemma dealCommunity_fields (n : Nat) (s : Table) :
    (dealCommunity n s).players = s.players ∧ (dealCommunity n s).pot = s.pot
      ∧ (dealCommunity n s).stage = s.stage := by
  unfold dealCommunity
  exact dealN_fields n _

lemma resetBets_facts (s : Table) :
    (resetBets s).players.map (fun p => p.id) = s.players.map (fun p => p.id)
      ∧ sumStack (resetBets s).players = sumStack s.players
      ∧ (resetBets s).pot = s.pot
      ∧ (sumBet s.players = 0 → sumBet (resetBets s).players = 0) := by
  refine ⟨?_, ?_, rfl, ?_⟩
  · unfold resetBets
    rw [List.map_map]
    apply List.map_congr_left
    intro p _
    simp only [Function.comp_apply]
    by_cases h : (p.inHand && !p.folded) = true
    · rw [if_pos h]
    · rw [if_neg h]
  · unfold resetBets sumStack
    rw [List.map_map]
    apply congrArg List.sum
    apply List.map_congr_left
    intro p _
    simp only [Function.comp_apply]
    by_cases h : (p.inHand && !p.folded) = true
    · rw [if_pos h]
    · rw [if_neg h]
  · intro h0
    unfold resetBets sumBet
    rw [List.map_map]
    have hle : (s.players.map ((fun p => p.bet) ∘ fun p =>
        if p.inHand && !p.folded then { p with bet := 0 } else p)).sum
        ≤ (s.players.map (fun p => p.bet)).sum := by
      apply List.sum_le_sum
      intro p _
      simp only [Function.comp_apply]
      by_cases h : (p.inHand && !p.folded) = true
      · rw [if_pos h]
        exact Nat.zero_le _
      · rw [if_neg h]
    unfold sumBet at h0
    omega

lemma advanceStage_conserves (f : List Nat → Nat) (s : Table)
    (hnd : (s.players.map (fun p => p.id)).Nodup)
    (hcom : sumCommitted s.players = s.pot + sumBet s.players) :
    chipTotal (advanceStage f s) = chipTotal s := by
  unfold advanceStage
  simp only []
  split
  · exact finishHand_conserves f { s with stage := .showdown } hnd hcom
  · set s1 := collectBetsToPot s with hs1
    have h1ids : s1.players.map (fun p => p.id) = s.players.map (fun p => p.id) := collect_ids s
    have h1nd : (s1.players.map (fun p => p.id)).Nodup := by rw [h1ids]; exact hnd
    have h1bets : sumBet s1.players = 0 := collect_bets s
    have h1com : sumCommitted s1.players = s1.pot := by
      rw [collect_committed s, collect_pot s, hcom]
    have h1chip : chipTotal s1 = chipTotal s := collect_chipTotal s
    split
    · have := finishHand_conserves f { s1 with stage := nextStage s1.stage } h1nd
        (by
          show sumCommitted s1.players = s1.pot + sumBet s1.players
          rw [h1bets, h1com]
          omega)
      exact this.trans h1chip
    · set s2 := { s1 with stage := nextStage s1.stage } with hs2
      set s3 := if s2.stage = Stage.flop then dealCommunity 3 s2 else s2 with hs3
      set s4 := if s3.stage = Stage.turn ∨ s3.stage = Stage.river then dealCommunity 1 s3 else s3 with hs4
      have h3 : s3.players = s2.players ∧ s3.pot = s2.pot := by
        rw [hs3]
        split
        · exact ⟨(dealCommunity_fields 3 s2).1, (dealCommunity_fields 3 s2).2.1⟩
        · exact ⟨rfl, rfl⟩
      have h4 : s4.players = s2.players ∧ s4.pot = s2.pot := by
        rw [hs4]
        split
        · exact ⟨((dealCommunity_fields 1 s3).1).trans h3.1,
            ((dealCommunity_fields 1 s3).2.1).trans h3.2⟩
        · exact h3
      have hr := resetBets_facts s4
      have hrb : sumBet (resetBets s4).players = 0 := by
        apply hr.2.2.2
        rw [h4.1]
        exact h1bets
      show sumStack (resetBets s4).players + s4.pot + sumBet (resetBets s4).players = chipTotal s
      rw [hr.2.1, hrb, h4.1, h4.2, ← h1chip]
      unfold chipTotal
      rw [h1bets]

lemma turnRotate_conserves (f : List Nat → Nat) (s : Table)
    (hnd : (s.players.map (fun p => p.id)).Nodup)
    (hcom : sumCommitted s.players = s.pot + sumBet s.players) :
    chipTotal (turnRotateOrAdvance f s) = chipTotal s := by
  unfold turnRotateOrAdvance
  simp only []
  split
  · exact finishHand_conserves f { s with stage := .showdown } hnd hcom
  · split
    · exact advanceStage_conserves f s hnd hcom
    · split
      · exact advanceStage_conserves f s hnd hcom
      · rfl
    · split
      · exact advanceStage_conserves f s hnd hcom
      · split
        · exact advanceStage_conserves f s hnd hcom
        · split
          · exact advanceStage_conserves f _ hnd hcom
          · rfl

lemma chip_set (s : Table) (idx : Nat) (p pnew : Player)
    (hpl : s.players[idx]? = some p)
    (hsb : pnew.stack + pnew.bet = p.stack + p.bet) :
    sumStack (s.players.set idx pnew) + s.pot + sumBet (s.players.set idx pnew) = chipTotal s := by
  have h1 := sum_map_set (fun p => p.stack) s.players idx pnew p hpl
  have h2 := sum_map_set (fun p => p.bet) s.players idx pnew p hpl
  simp only [] at h1 h2
  unfold chipTotal sumStack sumBet
  omega

lemma actionUpdate_conserves (f : List Nat → Nat) (s : Table) (idx : Nat) (p pnew : Player)
    (pv : List PreviewPot)
    (hpl : s.players[idx]? = some p)
    (hnd : (s.players.map (fun q => q.id)).Nodup)
    (hcom : sumCommitted s.players = s.pot + sumBet s.players)
    (hid : pnew.id = p.id)
    (hsb : pnew.stack + pnew.bet = p.stack + p.bet)
    (hcb : pnew.committed + p.bet = p.committed + pnew.bet) :
    chipTotal (turnRotateOrAdvance f
      { s with players := s.players.set idx pnew, sidePotsPreview := pv }) = chipTotal s := by
  set s2 := { s with players := s.players.set idx pnew, sidePotsPreview := pv } with hs2
  have h2nd : (s2.players.map (fun q => q.id)).Nodup := by
    rw [hs2]
    show ((s.players.set idx pnew).map (fun q => q.id)).Nodup
    rw [map_set_congr (fun q => q.id) s.players idx pnew p hpl hid]
    exact hnd
  have hcm := sum_map_set (fun q => q.committed) s.players idx pnew p hpl
  have hbt := sum_map_set (fun q => q.bet) s.players idx pnew p hpl
  have hst := sum_map_set (fun q => q.stack) s.players idx pnew p hpl
  simp only [] at hcm hbt hst
  have h2com : sumCommitted s2.players = s2.pot + sumBet s2.players := by
    rw [hs2]
    show sumCommitted (s.players.set idx pnew) = s.pot + sumBet (s.players.set idx pnew)
    unfold sumCommitted sumBet at *
    omega
  have h2chip : chipTotal s2 = chipTotal s := by
    rw [hs2]
    show sumStack (s.players.set idx pnew) + s.pot + sumBet (s.players.set idx pnew) = chipTotal s
    exact chip_set s idx p pnew hpl hsb
  exact (turnRotate_conserves f s2 h2nd h2com).trans h2chip

lemma ite_allin_fields (q : Prop) [Decidable q] (x : Player) :
    (if q then { x with allIn := true } else x).id = x.id
      ∧ (if q then { x with allIn := true } else x).stack = x.stack
      ∧ (if q then { x with allIn := true } else x).bet = x.bet
      ∧ (if q then { x with allIn := true } else x).committed = x.committed := by
  split <;> exact ⟨rfl, rfl, rfl, rfl⟩

lemma chip_set_table (s : Table) (idx : Nat) (p pnew : Player) (pv : List PreviewPot)
    (mrt : Nat) (hbr : Bool) (lri cur : Int)
    (hpl : s.players[idx]? = some p)
    (hsb : pnew.stack + pnew.bet = p.stack + p.bet) :
    chipTotal { s with players := s.players.set idx pnew, minRaiseTo := mrt,
                       hasBetOrRaise := hbr, lastRaiserIdx := lri, sidePotsPreview := pv,
                       currentPlayerIdx := cur } = chipTotal s := by
  have h1 := sum_map_set (fun q => q.stack) s.players idx pnew p hpl
  have h2 := sum_map_set (fun q => q.bet) s.players idx pnew p hpl
  simp only [] at h1 h2
  unfold chipTotal
  simp only []
  unfold sumStack sumBet
  omega

/-- C2 (amended): within a hand — in any state where the cumulative
committed total equals the pot plus the street bets, as the engine
maintains — the quantity sum(stack) + pot + sum(bet) is unchanged by every
applied player action (fold, check, call, bet, raise), including any
street advance or settlement the action triggers. -/
theorem handleAction_conserves_chips (f : List Nat → Nat) (s : Table) (sid : Nat) (a : Action)
    (hnd : (s.players.map (fun p => p.id)).Nodup)
    (hcom : sumCommitted s.players = s.pot + sumBet s.players) :
    chipTotal (handleAction f s sid a) = chipTotal s := by
  unfold handleAction
  cases hpi : playerIndexBySocket s.players sid with
  | none => rfl
  | some idx =>
    simp only []
    by_cases hcur : (idx : Int) ≠ s.currentPlayerIdx
    · rw [if_pos hcur]
    · rw [if_neg hcur]
      cases hpl : s.players[idx]? with
      | none => rfl
      | some p =>
        simp only []
        by_cases hact : (!(p.inHand && !p.folded)) = true
        · rw [if_pos hact]
        · rw [if_neg hact]
          cases a with
          | fold =>
            exact actionUpdate_conserves f s idx p { p with folded := true } _
              hpl hnd hcom rfl rfl rfl
          | check =>
            by_cases htc : maxBetOf s.players - p.bet = 0
            · rw [if_pos htc]
              exact turnRotate_conserves f _ hnd hcom
            · rw [if_neg htc]
          | call =>
            refine actionUpdate_conserves f s idx p _ _ hpl hnd hcom ?_ ?_ ?_
            · split <;> rfl
            · split <;> (simp only []; omega)
            · split <;> (simp only []; omega)
          | bet amount =>
            refine chip_set_table s idx p _ _ _ _ _ _ hpl ?_
            split <;> (simp only []; omega)
          | raise amount =>
            refine chip_set_table s idx p _ _ _ _ _ _ hpl ?_
            split <;> (simp only []; omega)

/-- C2 counterexample: the claim exactly as stated — sum(stack) + pot
without the street bets — fails on the code: an applied call moves chips
from the stack to the seat's bet and the quantity drops. -/
theorem stackPlusPot_not_invariant :
    sumStack (handleAction str0 exC2 1 .call).players + (handleAction str0 exC2 1 .call).pot
      ≠ sumStack exC2.players + exC2.pot := by decide

/-- C2 witness: the amended invariant evaluated at a concrete call. -/
theorem handleAction_conserves_chips_witness :
    ((exC2.players.map (fun p => p.id)).Nodup
        ∧ sumCommitted exC2.players = exC2.pot + sumBet exC2.players)
      ∧ chipTotal (handleAction str0 exC2 1 .call) = chipTotal exC2 :=
  ⟨⟨by decide, by decide⟩,
    handleAction_conserves_chips str0 exC2 1 .call (by decide) (by decide)⟩

lemma scanOffset_eq_none (pred : Player → Bool) (ps : List Player) (f : Nat) :
    ∀ (fuel k : Nat), scanOffset pred ps f k fuel = none
      ↔ ∀ j, k ≤ j → j < k + fuel → predAt pred ps f j = false := by
  intro fuel
  induction fuel with
  | zero =>
    intro k
    constructor
    · intro _ j hj1 hj2
      omega
    · intro _
      rfl
  | succ m ih =>
    intro k
    unfold scanOffset
    cases hml : ps[(f + k) % ps.length]? with
    | none =>
      simp only []
      rw [ih (k + 1)]
      constructor
      · intro h j hj1 hj2
        by_cases hjk : j = k
        · subst hjk
          unfold predAt
          rw [hml]
        · exact h j (by omega) (by omega)
      · intro h j hj1 hj2
        exact h j (by omega) (by omega)
    | some p =>
      simp only []
      by_cases hp : pred p = true
      · rw [if_pos hp]
        constructor
        · intro h
          exact absurd h (by simp)
        · intro h
          have := h k (by omega) (by omega)
          unfold predAt at this
          rw [hml] at this
          simp only [] at this
          rw [hp] at this
          exact absurd this (by simp)
      · rw [if_neg hp]
        rw [ih (k + 1)]
        constructor
        · intro h j hj1 hj2
          by_cases hjk : j = k
          · subst hjk
            unfold predAt
            rw [hml]
            simpa using hp
          · exact h j (by omega) (by omega)
        · intro h j hj1 hj2
          exact h j (by omega) (by omega)

lemma scanOffset_eq_some (pred : Player → Bool) (ps : List Player) (f : Nat) :
    ∀ (fuel k j : Nat), scanOffset pred ps f k fuel = some j
      ↔ (k ≤ j ∧ j < k + fuel ∧ predAt pred ps f j = true
          ∧ ∀ i, k ≤ i → i < j → predAt pred ps f i = false) := by
  intro fuel
  induction fuel with
  | zero =>
    intro k j
    constructor
    · intro h
      exact absurd h (by simp [scanOffset])
    · intro ⟨h1, h2, _, _⟩
      omega
  | succ m ih =>
    intro k j
    unfold scanOffset
    cases hml : ps[(f + k) % ps.length]? with
    | none =>
      simp only []
      rw [ih (k + 1) j]
      have hpk : predAt pred ps f k = false := by
        unfold predAt
        rw [hml]
      constructor
      · intro ⟨h1, h2, h3, h4⟩
        have hjk : j ≠ k := by
          intro hc
          subst hc
          rw [hpk] at h3
          exact absurd h3 (by simp)
        refine ⟨by omega, by omega, h3, ?_⟩
        intro i hi1 hi2
        by_cases hik : i = k
        · subst hik
          exact hpk
        · exact h4 i (by omega) hi2
      · intro ⟨h1, h2, h3, h4⟩
        have hjk : j ≠ k := by
          intro hc
          subst hc
          rw [hpk] at h3
          exact absurd h3 (by simp)
        exact ⟨by omega, by omega, h3, fun i hi1 hi2 => h4 i (by omega) hi2⟩
    | some p =>
      simp only []
      have hpk : predAt pred ps f k = pred p := by
        unfold predAt
        rw [hml]
      by_cases hp : pred p = true
      · rw [if_pos hp]
        constructor
        · intro h
          have hj : j = k := by
            have := Option.some.inj h
            omega
          subst hj
          refine ⟨by omega, by omega, by rw [hpk, hp], ?_⟩
          intro i hi1 hi2
          omega
        · intro ⟨h1, h2, h3, h4⟩
          have hjk : j = k := by
            by_contra hne
            have := h4 k (by omega) (by omega)
            rw [hpk, hp] at this
            exact absurd this (by simp)
          rw [hjk]
      · rw [if_neg hp]
        rw [ih (k + 1) j]
        have hpkf : predAt pred ps f k = false := by
          rw [hpk]
          simpa using hp
        constructor
        · intro ⟨h1, h2, h3, h4⟩
          have hjk : j ≠ k := by
            intro hc
            subst hc
            rw [hpkf] at h3
            exact absurd h3 (by simp)
          refine ⟨by omega, by omega, h3, ?_⟩
          intro i hi1 hi2
          by_cases hik : i = k
          · subst hik
            exact hpkf
          · exact h4 i (by omega) hi2
        · intro ⟨h1, h2, h3, h4⟩
          have hjk : j ≠ k := by
            intro hc
            subst hc
            rw [hpkf] at h3
            exact absurd h3 (by simp)
          exact ⟨by omega, by omega, h3, fun i hi1 hi2 => h4 i (by omega) hi2⟩

lemma tmod_nonneg_coe (a k n : Nat) :
    ((a : Int) + (k : Int)).tmod (n : Int) = (((a + k) % n : Nat) : Int) := by
  have h1 : ((a : Int) + (k : Int)) = ((a + k : Nat) : Int) := by push_cast; ring
  rw [h1]
  rw [Int.tmod_eq_emod (by positivity) (by positivity)]
  push_cast
  rfl

lemma napAux_eq_scan (ps : List Player) (fromIdx : Int) (hf : 0 ≤ fromIdx)
    (hn : 0 < ps.length) :
    ∀ (fuel k : Nat),
      napAux ps fromIdx k fuel
        = (match scanOffset aliveP ps fromIdx.toNat k fuel with
           | some j => (((fromIdx.toNat + j) % ps.length : Nat) : Int)
           | none => -1) := by
  intro fuel
  induction fuel with
  | zero => intro k; rfl
  | succ m ih =>
    intro k
    unfold napAux scanOffset
    simp only []
    have hcast : (fromIdx + (k : Int)).tmod (ps.length : Int)
        = (((fromIdx.toNat + k) % ps.length : Nat) : Int) := by
      have : fromIdx = ((fromIdx.toNat : Nat) : Int) := by omega
      rw [this]
      exact tmod_nonneg_coe _ k _
    rw [hcast]
    have hge : (0 : Int) ≤ (((fromIdx.toNat + k) % ps.length : Nat) : Int) := by positivity
    rw [if_pos hge]
    have htn : ((((fromIdx.toNat + k) % ps.length : Nat) : Int)).toNat
        = (fromIdx.toNat + k) % ps.length := by omega
    rw [htn]
    cases hml : ps[(fromIdx.toNat + k) % ps.length]? with
    | none => exact ih (k + 1)
    | some p =>
      simp only []
      by_cases hp : aliveP p = true
      · rw [if_pos hp, if_pos hp]
      · rw [if_neg hp, if_neg hp]
        exact ih (k + 1)

lemma canAct_implies_alive (p : Player) (h : canActP p = true) : aliveP p = true := by
  unfold canActP at h
  unfold aliveP
  simp only [Bool.and_eq_true] at h ⊢
  exact h.1

lemma predAt_shift (pred : Player → Bool) (ps : List Player) (f kx m : Nat) :
    predAt pred ps ((f + kx) % ps.length) m = predAt pred ps f (kx + m) := by
  unfold predAt
  rw [Nat.mod_add_mod]
  rw [show f + kx + m = f + (kx + m) by omega]

lemma exists_scan_some (pred : Player → Bool) (ps : List Player) (f : Nat)
    (hn : 0 < ps.length) (hex : ∃ p ∈ ps, pred p = true) :
    ∃ k, scanOffset pred ps f 1 ps.length = some k := by
  cases hs : scanOffset pred ps f 1 ps.length with
  | some k => exact ⟨k, rfl⟩
  | none =>
    exfalso
    have hnone := (scanOffset_eq_none pred ps f ps.length 1).mp hs
    obtain ⟨p, hp, hpred⟩ := hex
    obtain ⟨i, hi, hgi⟩ := List.mem_iff_getElem.mp hp
    have hj : ∃ j, 1 ≤ j ∧ j < 1 + ps.length ∧ (f + j) % ps.length = i := by
      set n := ps.length with hnn
      have hrn : f % n < n := Nat.mod_lt _ hn
      by_cases hcase : f % n < i
      · refine ⟨i - f % n, by omega, by omega, ?_⟩
        rw [← Nat.mod_add_mod]
        have h2 : f % n + (i - f % n) = i := by omega
        rw [h2]
        exact Nat.mod_eq_of_lt hi
      · refine ⟨i + n - f % n, by omega, by omega, ?_⟩
        rw [← Nat.mod_add_mod]
        have h2 : f % n + (i + n - f % n) = i + n := by omega
        rw [h2, Nat.add_mod_right]
        exact Nat.mod_eq_of_lt hi
    obtain ⟨j, hj1, hj2, hj3⟩ := hj
    have := hnone j hj1 hj2
    unfold predAt at this
    rw [hj3] at this
    rw [List.getElem?_eq_getElem hi, hgi] at this
    simp only [] at this
    rw [hpred] at this
    exact absurd this (by simp)

lemma coe_ne_neg_one (m : Nat) : (((m : Nat) : Int) == -1) = false := by
  rw [beq_eq_false_iff_ne]
  omega

lemma rotLoop_exit (ps : List Player) (cur x : Int) (hops fuel : Nat)
    (h : ((x == -1) || rotBad ps x) = false) :
    rotLoop ps cur x hops fuel = (x, hops) := by
  cases fuel with
  | zero => rfl
  | succ m =>
    unfold rotLoop
    rw [h, Bool.and_false]
    exact if_neg (by simp)

lemma rotBad_false_of_canAct (ps : List Player) (f kx : Nat)
    (h : predAt canActP ps f kx = true) :
    rotBad ps (((f + kx) % ps.length : Nat) : Int) = false := by
  unfold rotBad
  unfold predAt at h
  have hge : (0 : Int) ≤ (((f + kx) % ps.length : Nat) : Int) := by positivity
  rw [if_pos hge]
  have htn : ((((f + kx) % ps.length : Nat) : Int)).toNat = (f + kx) % ps.length := by omega
  rw [htn]
  cases hml : ps[(f + kx) % ps.length]? with
  | none =>
    rw [hml] at h
    exact absurd h (by simp)
  | some p =>
    rw [hml] at h
    simp only [] at h ⊢
    rw [h]
    rfl

lemma rotBad_true_of_allin (ps : List Player) (f kx : Nat)
    (halive : predAt aliveP ps f kx = true)
    (hcan : predAt canActP ps f kx = false) :
    rotBad ps (((f + kx) % ps.length : Nat) : Int) = true := by
  unfold rotBad
  unfold predAt at halive hcan
  have hge : (0 : Int) ≤ (((f + kx) % ps.length : Nat) : Int) := by positivity
  rw [if_pos hge]
  have htn : ((((f + kx) % ps.length : Nat) : Int)).toNat = (f + kx) % ps.length := by omega
  rw [htn]
  cases hml : ps[(f + kx) % ps.length]? with
  | none =>
    rw [hml] at halive
  | some p =>
    rw [hml] at hcan
    simp only [] at hcan ⊢
    rw [hcan]
    rfl

lemma rotLoop_reaches :
    ∀ (dk : Nat), ∀ (ps : List Player) (cur : Int) (f kstar kx hops fuel : Nat),
      fuel + hops = ps.length →
      scanOffset canActP ps f 1 ps.length = some kstar →
      dk = kstar - kx → 1 ≤ kx → kx ≤ kstar →
      predAt aliveP ps f kx = true →
      hops + 1 ≤ kx →
      ∃ hops2, rotLoop ps cur (((f + kx) % ps.length : Nat) : Int) hops fuel
          = ((((f + kstar) % ps.length : Nat) : Int), hops2) ∧ hops2 + 1 ≤ kstar := by
  intro dk
  induction dk using Nat.strong_induction_on with
  | _ dk ih =>
    intro ps cur f kstar kx hops fuel hfuel hscan hdk hkx1 hkxs halive hhops
    obtain ⟨hks1, hksn, hkcan, hkmin⟩ :=
      (scanOffset_eq_some canActP ps f ps.length 1 kstar).mp hscan
    have hne := coe_ne_neg_one ((f + kx) % ps.length)
    by_cases heq : kx = kstar
    · subst heq
      refine ⟨hops, ?_, by omega⟩
      apply rotLoop_exit
      rw [hne, rotBad_false_of_canAct ps f kx hkcan]
      rfl
    · have hlt : kx < kstar := by omega
      have hcanf : predAt canActP ps f kx = false := hkmin kx (by omega) hlt
      have hbad := rotBad_true_of_allin ps f kx halive hcanf
      have hn : 0 < ps.length := by omega
      obtain ⟨fuel2, rfl⟩ : ∃ fuel2, fuel = fuel2 + 1 := ⟨fuel - 1, by omega⟩
      unfold rotLoop
      have hcond : (decide (hops < ps.length)
          && (((((f + kx) % ps.length : Nat) : Int) == -1) || rotBad ps (((f + kx) % ps.length : Nat) : Int))) = true := by
        rw [hne, hbad]
        simp only [Bool.false_or, Bool.and_true, decide_eq_true_eq]
        omega
      rw [if_pos hcond]
      have hifx : (if ((((f + kx) % ps.length : Nat) : Int) == -1) = true then cur
          else (((f + kx) % ps.length : Nat) : Int)) = (((f + kx) % ps.length : Nat) : Int) := by
        rw [hne]
        simp
      rw [hifx]
      have hxge : (0 : Int) ≤ (((f + kx) % ps.length : Nat) : Int) := by positivity
      have hxtn : ((((f + kx) % ps.length : Nat) : Int)).toNat = (f + kx) % ps.length := by omega
      have hnap := napAux_eq_scan ps (((f + kx) % ps.length : Nat) : Int) hxge hn ps.length 1
      rw [hxtn] at hnap
      have halivek : predAt aliveP ps ((f + kx) % ps.length) (kstar - kx) = true := by
        rw [predAt_shift]
        rw [show kx + (kstar - kx) = kstar from by omega]
        unfold predAt at hkcan ⊢
        cases hml : ps[(f + kstar) % ps.length]? with
        | none =>
          rw [hml] at hkcan
          exact absurd hkcan (by simp)
        | some p =>
          rw [hml] at hkcan
          simp only [] at hkcan ⊢
          exact canAct_implies_alive p hkcan
      cases hm0 : scanOffset aliveP ps ((f + kx) % ps.length) 1 ps.length with
      | none =>
        exfalso
        have := (scanOffset_eq_none aliveP ps ((f + kx) % ps.length) ps.length 1).mp hm0
          (kstar - kx) (by omega) (by omega)
        rw [halivek] at this
        exact absurd this (by simp)
      | some m0 =>
        obtain ⟨hm1, hmn, hmal, hmmin⟩ :=
          (scanOffset_eq_some aliveP ps ((f + kx) % ps.length) ps.length 1 m0).mp hm0
        have hm0le : m0 ≤ kstar - kx := by
          by_contra hgt
          have := hmmin (kstar - kx) (by omega) (by omega)
          rw [halivek] at this
          exact absurd this (by simp)
        rw [hm0] at hnap
        simp only [] at hnap
        unfold nextActivePlayer
        rw [hnap]
        have hidx : ((f + kx) % ps.length + m0) % ps.length = (f + (kx + m0)) % ps.length := by
          rw [Nat.mod_add_mod]
          rw [show f + kx + m0 = f + (kx + m0) from by omega]
        rw [hidx]
        have halivekx2 : predAt aliveP ps f (kx + m0) = true := by
          rw [← predAt_shift]
          exact hmal
        exact ih (kstar - (kx + m0)) (by omega) ps cur f kstar (kx + m0) (hops + 1) fuel2
          (by omega) hscan rfl (by omega) (by omega) halivekx2 (by omega)

lemma predAt_canAct_alive (ps : List Player) (f k : Nat)
    (h : predAt canActP ps f k = true) : predAt aliveP ps f k = true := by
  unfold predAt at h ⊢
  cases hml : ps[(f + k) % ps.length]? with
  | none =>
    rw [hml] at h
    simp only [] at h ⊢
    exact h
  | some p =>
    rw [hml] at h
    simp only [] at h ⊢
    exact canAct_implies_alive p h

lemma rotLoop_main (ps : List Player) (cur : Int) (hcur : 0 ≤ cur) (hn : 0 < ps.length)
    (kstar : Nat) (hk : scanOffset canActP ps cur.toNat 1 ps.length = some kstar) :
    ∃ hops2, rotLoop ps cur (nextActivePlayer ps cur) 0 ps.length
        = ((((cur.toNat + kstar) % ps.length : Nat) : Int), hops2) ∧ hops2 + 1 ≤ kstar := by
  obtain ⟨hks1, hksn, hkcan, hkmin⟩ :=
    (scanOffset_eq_some canActP ps cur.toNat ps.length 1 kstar).mp hk
  have halivek : predAt aliveP ps cur.toNat kstar = true := predAt_canAct_alive _ _ _ hkcan
  cases hm0 : scanOffset aliveP ps cur.toNat 1 ps.length with
  | none =>
    exfalso
    have := (scanOffset_eq_none aliveP ps cur.toNat ps.length 1).mp hm0 kstar (by omega) (by omega)
    rw [halivek] at this
    exact absurd this (by simp)
  | some m0 =>
    obtain ⟨hm1, hmn, hmal, hmmin⟩ :=
      (scanOffset_eq_some aliveP ps cur.toNat ps.length 1 m0).mp hm0
    have hm0le : m0 ≤ kstar := by
      by_contra hgt
      have := hmmin kstar (by omega) (by omega)
      rw [halivek] at this
      exact absurd this (by simp)
    have hnap := napAux_eq_scan ps cur hcur hn ps.length 1
    rw [hm0] at hnap
    simp only [] at hnap
    unfold nextActivePlayer
    rw [hnap]
    exact rotLoop_reaches (kstar - m0) ps cur cur.toNat kstar m0 0 ps.length (by omega) hk rfl
      (by omega) hm0le hmal (by omega)

lemma advanceStage_stage (f : List Nat → Nat) (s : Table) :
    (advanceStage f s).stage = Stage.showdown ∨ (advanceStage f s).stage = nextStage s.stage := by
  unfold advanceStage
  simp only []
  split
  · left
    rw [finishHand_stage]
  · split
    · next hsd =>
      right
      rw [finishHand_stage]
      rfl
    · right
      set s1 := collectBetsToPot s with hs1
      set s2 := { s1 with stage := nextStage s1.stage } with hs2
      set s3 := if s2.stage = Stage.flop then dealCommunity 3 s2 else s2 with hs3
      set s4 := if s3.stage = Stage.turn ∨ s3.stage = Stage.river then dealCommunity 1 s3 else s3 with hs4
      have h3 : s3.stage = s2.stage := by
        rw [hs3]
        split
        · exact (dealCommunity_fields 3 s2).2.2
        · rfl
      have h4 : s4.stage = s2.stage := by
        rw [hs4]
        split
        · exact ((dealCommunity_fields 1 s3).2.2).trans h3
        · exact h3
      show (resetBets s4).stage = nextStage s.stage
      show s4.stage = nextStage s.stage
      rw [h4]
      rfl

/-- C3: after every applied action on a betting street, the engine reports
the betting round complete (it advances the stage or settles) exactly when
the round-completion rule of the specification holds: empty canAct (or at
most one live seat) completes at once, a lone actable seat completes once
its bet matches the maximum, and with two or more actable seats the street
completes once a bet or raise has been matched by all of them or, in an
unraised street, once the turn returns to roundFirstIdx.  In particular
three live seats with bets 50/50/50 after a bet complete the street, and
bets 50/50/0 with a seat still to act do not. -/
theorem roundComplete_matches_spec :
    (∀ (f : List Nat → Nat) (s : Table),
        (s.stage = Stage.preflop ∨ s.stage = Stage.flop ∨ s.stage = Stage.turn
          ∨ s.stage = Stage.river) →
        0 ≤ s.currentPlayerIdx →
        (((turnRotateOrAdvance f s).stage ≠ s.stage) ↔ specRoundCompleteB s = true))
    ∧ ((turnRotateOrAdvance str0 exC3a).stage ≠ exC3a.stage)
    ∧ ((turnRotateOrAdvance str0 exC3b).stage = exC3b.stage) := by
  refine ⟨?_, by decide, by decide⟩
  intro f s hst hcur
  have hshow : Stage.showdown ≠ s.stage := by
    rcases hst with h | h | h | h <;> rw [h] <;> decide
  have hnext : nextStage s.stage ≠ s.stage := by
    rcases hst with h | h | h | h <;> rw [h] <;> decide
  have hadv : ∀ s2 : Table, s2.stage = s.stage → (advanceStage f s2).stage ≠ s.stage := by
    intro s2 hstg
    rcases advanceStage_stage f s2 with h | h
    · rw [h]
      exact hshow
    · rw [h, hstg]
      exact hnext
  by_cases halive : (s.players.filter aliveP).length ≤ 1
  · have hspec : specRoundCompleteB s = true := by
      unfold specRoundCompleteB
      simp only []
      rw [if_pos halive]
    have hcode : (turnRotateOrAdvance f s).stage ≠ s.stage := by
      unfold turnRotateOrAdvance
      simp only []
      rw [if_pos halive, finishHand_stage]
      exact hshow
    exact iff_of_true hcode (by rw [hspec])
  · have hnn : 0 < s.players.length := by
      have := List.length_filter_le aliveP s.players
      omega
    cases hca : s.players.filter canActP with
    | nil =>
      have hspec : specRoundCompleteB s = true := by
        unfold specRoundCompleteB
        simp only []
        rw [if_neg halive, hca]
        simp
      have hcode : (turnRotateOrAdvance f s).stage ≠ s.stage := by
        unfold turnRotateOrAdvance
        simp only []
        rw [if_neg halive, hca]
        simp only []
        exact hadv s rfl
      exact iff_of_true hcode (by rw [hspec])
    | cons lone rest =>
      cases hrest : rest with
      | nil =>
        subst hrest
        by_cases hbet : lone.bet = maxBetOf s.players
        · have hspec : specRoundCompleteB s = true := by
            unfold specRoundCompleteB
            simp only []
            rw [if_neg halive, hca]
            simp [hbet]
          have hcode : (turnRotateOrAdvance f s).stage ≠ s.stage := by
            unfold turnRotateOrAdvance
            simp only []
            rw [if_neg halive, hca]
            simp only []
            rw [if_pos hbet]
            exact hadv s rfl
          exact iff_of_true hcode (by rw [hspec])
        · have hspec : specRoundCompleteB s = false := by
            unfold specRoundCompleteB
            simp only []
            rw [if_neg halive, hca]
            simp [hbet]
          have hcode : ¬ ((turnRotateOrAdvance f s).stage ≠ s.stage) := by
            unfold turnRotateOrAdvance
            simp only []
            rw [if_neg halive, hca]
            simp only []
            rw [if_neg hbet]
            intro h
            exact h rfl
          exact iff_of_false hcode (by rw [hspec]; simp)
      | cons second t =>
        subst hrest
        have hlonecan : lone ∈ s.players ∧ canActP lone = true := by
          have : lone ∈ s.players.filter canActP := by rw [hca]; simp
          exact ⟨List.mem_of_mem_filter this, (List.mem_filter.mp this).2⟩
        obtain ⟨kstar, hk⟩ := exists_scan_some canActP s.players s.currentPlayerIdx.toNat hnn
          ⟨lone, hlonecan.1, hlonecan.2⟩
        obtain ⟨hks1, hksn, hkcan, hkmin⟩ :=
          (scanOffset_eq_some canActP s.players s.currentPlayerIdx.toNat s.players.length 1 kstar).mp hk
        obtain ⟨hops2, hrot, hhops2⟩ := rotLoop_main s.players s.currentPlayerIdx hcur hnn kstar hk
        have hspecActor : specNextActor s.players s.currentPlayerIdx.toNat
            = some ((s.currentPlayerIdx.toNat + kstar) % s.players.length) := by
          unfold specNextActor
          rw [hk]
          rfl
        have hne1 := coe_ne_neg_one ((s.currentPlayerIdx.toNat + kstar) % s.players.length)
        have hhle : ¬ (s.players.length ≤ hops2) := by omega
        have hfailF : ((((s.currentPlayerIdx.toNat + kstar) % s.players.length : Nat) : Int) == -1
            || decide (s.players.length ≤ hops2)) = false := by
          rw [hne1, decide_eq_false hhle]
          rfl
        have hlen0 : ¬ ((lone :: second :: t).length = 0) := by simp
        have hlen1 : ¬ ((lone :: second :: t).length = 1) := by simp
        by_cases hB : s.hasBetOrRaise = true
        · by_cases hAM : ((lone :: second :: t).all (fun p => p.bet == maxBetOf s.players)) = true
          · have hspec : specRoundCompleteB s = true := by
              unfold specRoundCompleteB
              simp only []
              rw [if_neg halive]
              rw [hca]
              rw [if_neg hlen0, if_neg hlen1, if_pos hB]
              exact hAM
            have hcode : (turnRotateOrAdvance f s).stage ≠ s.stage := by
              unfold turnRotateOrAdvance
              simp only []
              rw [if_neg halive]
              rw [hca]
              simp only []
              rw [if_pos (show (s.hasBetOrRaise
                  && (lone :: second :: t).all (fun p => p.bet == maxBetOf s.players)) = true
                from by rw [hB, hAM]; simp)]
              exact hadv s rfl
            exact iff_of_true hcode (by rw [hspec])
          · have hAMf : ((lone :: second :: t).all (fun p => p.bet == maxBetOf s.players)) = false := by
              simpa using hAM
            have hspec : specRoundCompleteB s = false := by
              unfold specRoundCompleteB
              simp only []
              rw [if_neg halive]
              rw [hca]
              rw [if_neg hlen0, if_neg hlen1, if_pos hB]
              exact hAMf
            have hcode : ¬ ((turnRotateOrAdvance f s).stage ≠ s.stage) := by
              unfold turnRotateOrAdvance
              simp only []
              rw [if_neg halive]
              rw [hca]
              simp only []
              rw [if_neg (show ¬ ((s.hasBetOrRaise
                  && (lone :: second :: t).all (fun p => p.bet == maxBetOf s.players)) = true)
                from by rw [hAMf]; simp)]
              rw [hrot]
              simp only []
              rw [if_neg (show ¬ (((((s.currentPlayerIdx.toNat + kstar) % s.players.length : Nat) : Int) == -1
                  || decide (s.players.length ≤ hops2)) = true)
                from by rw [hfailF]; simp)]
              rw [if_neg (show ¬ ((!s.hasBetOrRaise
                  && ((((s.currentPlayerIdx.toNat + kstar) % s.players.length : Nat) : Int) == s.roundFirstIdx)) = true)
                from by rw [hB]; simp)]
              intro h
              exact h rfl
            exact iff_of_false hcode (by rw [hspec]; simp)
        · have hBf : s.hasBetOrRaise = false := by
            cases hbv : s.hasBetOrRaise
            · rfl
            · exact absurd hbv hB
          by_cases hret : (((s.currentPlayerIdx.toNat + kstar) % s.players.length : Nat) : Int)
              = s.roundFirstIdx
          · have hspec : specRoundCompleteB s = true := by
              unfold specRoundCompleteB
              simp only []
              rw [if_neg halive]
              rw [hca]
              rw [if_neg hlen0, if_neg hlen1, if_neg (show ¬ (s.hasBetOrRaise = true) from by rw [hBf]; simp)]
              rw [hspecActor]
              simp only []
              rw [beq_iff_eq]
              exact hret
            have hcode : (turnRotateOrAdvance f s).stage ≠ s.stage := by
              unfold turnRotateOrAdvance
              simp only []
              rw [if_neg halive]
              rw [hca]
              simp only []
              rw [if_neg (show ¬ ((s.hasBetOrRaise
                  && (lone :: second :: t).all (fun p => p.bet == maxBetOf s.players)) = true)
                from by rw [hBf]; simp)]
              rw [hrot]
              simp only []
              rw [if_neg (show ¬ (((((s.currentPlayerIdx.toNat + kstar) % s.players.length : Nat) : Int) == -1
                  || decide (s.players.length ≤ hops2)) = true)
                from by rw [hfailF]; simp)]
              rw [if_pos (show (!s.hasBetOrRaise
                  && ((((s.currentPlayerIdx.toNat + kstar) % s.players.length : Nat) : Int) == s.roundFirstIdx)) = true
                from by rw [hBf, beq_iff_eq.mpr hret]; rfl)]
              exact hadv _ rfl
            exact iff_of_true hcode (by rw [hspec])
          · have hspec : specRoundCompleteB s = false := by
              unfold specRoundCompleteB
              simp only []
              rw [if_neg halive]
              rw [hca]
              rw [if_neg hlen0, if_neg hlen1, if_neg (show ¬ (s.hasBetOrRaise = true) from by rw [hBf]; simp)]
              rw [hspecActor]
              simp only []
              exact beq_eq_false_iff_ne.mpr hret
            have hcode : ¬ ((turnRotateOrAdvance f s).stage ≠ s.stage) := by
              unfold turnRotateOrAdvance
              simp only []
              rw [if_neg halive]
              rw [hca]
              simp only []
              rw [if_neg (show ¬ ((s.hasBetOrRaise
                  && (lone :: second :: t).all (fun p => p.bet == maxBetOf s.players)) = true)
                from by rw [hBf]; simp)]
              rw [hrot]
              simp only []
              rw [if_neg (show ¬ (((((s.currentPlayerIdx.toNat + kstar) % s.players.length : Nat) : Int) == -1
                  || decide (s.players.length ≤ hops2)) = true)
                from by rw [hfailF]; simp)]
              rw [if_neg (show ¬ ((!s.hasBetOrRaise
                  && ((((s.currentPlayerIdx.toNat + kstar) % s.players.length : Nat) : Int) == s.roundFirstIdx)) = true)
                from by rw [hBf, beq_eq_false_iff_ne.mpr hret]; simp)]
              intro h
              exact h rfl
            exact iff_of_false hcode (by rw [hspec]; simp)

/-- C3 witness: the equivalence applied at the concrete 50/50/50 state. -/
theorem roundComplete_matches_spec_witness :
    specRoundCompleteB exC3a = true :=
  (roundComplete_matches_spec.1 str0 exC3a (by decide) (by decide)).mp (by decide)

/-- C4: a band whose level is reached by exactly one seat is refunded in
full to that sole contributor and emits no pot. -/
theorem solo_band_refunded (ps : List Player) (r : SidePots) (prev lvl : Nat) (sole : Player)
    (hband : prev < lvl)
    (hfil : ps.filter (fun p => lvl ≤ p.committed) = [sole]) :
    (sidePotStep ps (r, prev) lvl).1.pots = r.pots
    ∧ (sidePotStep ps (r, prev) lvl).1.refundsById sole.id
        = r.refundsById sole.id + (lvl - prev)
    ∧ (sidePotStep ps (r, prev) lvl).1.totalRefund = r.totalRefund + (lvl - prev) := by
  unfold sidePotStep
  simp only []
  rw [if_neg (show ¬ (lvl - prev = 0) from by omega)]
  rw [hfil]
  refine ⟨rfl, ?_, rfl⟩
  show bumpRefund r.refundsById sole.id (lvl - prev) sole.id
    = r.refundsById sole.id + (lvl - prev)
  unfold bumpRefund
  rw [if_pos rfl]

/-- C4 witness: the 100..500 band of the concrete ledger is refunded in
full to its single contributor. -/
theorem solo_band_refunded_witness :
    (sidePotStep exC4ps (⟨[], fun _ => 0, 0⟩, 100) 500).1.pots = []
    ∧ (sidePotStep exC4ps (⟨[], fun _ => 0, 0⟩, 100) 500).1.refundsById 1 = 400
    ∧ (sidePotStep exC4ps (⟨[], fun _ => 0, 0⟩, 100) 500).1.totalRefund = 400 := by
  obtain ⟨h1, h2, h3⟩ := solo_band_refunded exC4ps ⟨[], fun _ => 0, 0⟩ 100 500
    (mkP 1 0 0 true false false 0 500) (by decide) (by decide)
  exact ⟨h1, h2.trans (by decide), h3.trans (by decide)⟩

lemma bumpRefund_ne (f : Nat → Nat) (a amt x : Nat) (hx : x ≠ a) :
    bumpRefund f a amt x = f x := by
  unfold bumpRefund
  rw [if_neg hx]

lemma bumpRefund_self (f : Nat → Nat) (a amt : Nat) :
    bumpRefund f a amt a = f a + amt := by
  unfold bumpRefund
  rw [if_pos rfl]

lemma foldl_bumpRefund_notmem :
    ∀ (cs : List Player) (f : Nat → Nat) (amt x : Nat),
      x ∉ cs.map (fun p => p.id) →
      cs.foldl (fun g c => bumpRefund g c.id amt) f x = f x := by
  intro cs
  induction cs with
  | nil => intro f amt x _; rfl
  | cons a t ih =>
    intro f amt x hx
    rw [List.map_cons] at hx
    have hxa : x ≠ a.id := fun h => hx (by rw [h]; exact List.mem_cons_self _ _)
    have hxt : x ∉ t.map (fun p => p.id) := fun h => hx (List.mem_cons_of_mem _ h)
    rw [List.foldl_cons, ih _ _ _ hxt, bumpRefund_ne _ _ _ _ hxa]

lemma foldl_bumpRefund_mem :
    ∀ (cs : List Player) (f : Nat → Nat) (amt : Nat) (c : Player),
      c ∈ cs → ((cs.map (fun p => p.id)).Nodup) →
      cs.foldl (fun g d => bumpRefund g d.id amt) f c.id = f c.id + amt := by
  intro cs
  induction cs with
  | nil => intro f amt c hc _; cases hc
  | cons a t ih =>
    intro f amt c hc hnd
    rw [List.map_cons] at hnd
    have hnd2 := List.nodup_cons.mp hnd
    rw [List.foldl_cons]
    rcases List.mem_cons.mp hc with hca | hct
    · subst hca
      rw [foldl_bumpRefund_notmem t _ amt c.id hnd2.1, bumpRefund_self]
    · have hcid : c.id ∈ t.map (fun p => p.id) := List.mem_map_of_mem _ hct
      have haid : a.id ≠ c.id := fun h => hnd2.1 (h ▸ hcid)
      rw [ih _ _ _ hct hnd2.2, bumpRefund_ne _ _ _ _ (fun h => haid h.symm)]

/-- C5: a band reached by two or more contributors of whom none is still
eligible emits no pot; each contributor is refunded one band width and the
total refund grows by band times the contributor count. -/
theorem dead_band_refunded (ps : List Player) (r : SidePots) (prev lvl : Nat)
    (hband : prev < lvl)
    (htwo : 2 ≤ (ps.filter (fun p => lvl ≤ p.committed)).length)
    (helig : ps.filter (fun p => p.inHand && !p.folded && lvl ≤ p.committed) = [])
    (hnd : (((ps.filter (fun p => lvl ≤ p.committed)).map (fun p => p.id)).Nodup)) :
    (sidePotStep ps (r, prev) lvl).1.pots = r.pots
    ∧ (∀ c ∈ ps.filter (fun p => lvl ≤ p.committed),
        (sidePotStep ps (r, prev) lvl).1.refundsById c.id = r.refundsById c.id + (lvl - prev))
    ∧ (sidePotStep ps (r, prev) lvl).1.totalRefund
        = r.totalRefund + (lvl - prev) * (ps.filter (fun p => lvl ≤ p.committed)).length := by
  unfold sidePotStep
  simp only []
  rw [if_neg (show ¬ (lvl - prev = 0) from by omega)]
  rcases hfil : ps.filter (fun p => lvl ≤ p.committed) with _ | ⟨a, _ | ⟨b, t⟩⟩
  · rw [hfil] at htwo
    simp only [List.length_nil] at htwo
    omega
  · rw [hfil] at htwo
    simp only [List.length_cons, List.length_nil] at htwo
    omega
  · rw [hfil] at hnd ⊢
    simp only []
    rw [helig]
    rw [if_neg (show ¬ (1 ≤ ([] : List Player).length) from by simp)]
    refine ⟨rfl, ?_, rfl⟩
    intro c hc
    exact foldl_bumpRefund_mem _ _ _ c hc hnd

/-- C5 witness: the 100..300 band of the concrete ledger, reached by the
two folded seats only, is refunded to both; nothing is potted. -/
theorem dead_band_refunded_witness :
    (sidePotStep exC5ps (⟨[], fun _ => 0, 0⟩, 100) 300).1.pots = []
    ∧ (sidePotStep exC5ps (⟨[], fun _ => 0, 0⟩, 100) 300).1.refundsById 1 = 200
    ∧ (sidePotStep exC5ps (⟨[], fun _ => 0, 0⟩, 100) 300).1.totalRefund = 400 := by
  obtain ⟨h1, h2, h3⟩ := dead_band_refunded exC5ps ⟨[], fun _ => 0, 0⟩ 100 300
    (by decide) (by decide) (by decide) (by decide)
  refine ⟨h1, ?_, h3.trans (by decide)⟩
  have := h2 (mkP 1 0 0 true true false 0 300) (by decide)
  exact this.trans (by decide)

/-- C6: a blind post pays min(blind, stack) and leaves every other seat
field — in particular allIn — untouched, so a short-stacked post that
empties the stack is NOT marked all-in: the concrete 25-chip stack posting
the 50 big blind ends with stack 0 and allIn still false. -/
theorem postBlind_no_allin :
    (∀ (idx amt : Nat) (s : Table) (p : Player), s.players[idx]? = some p →
        ∃ p1, (postBlind idx amt s).players = s.players.set idx p1
          ∧ p1.stack = p.stack - min amt p.stack
          ∧ p1.bet = min amt p.stack
          ∧ p1.committed = p.committed + min amt p.stack
          ∧ p1.allIn = p.allIn)
    ∧ ((postBlind 0 BIG_BLIND exC6).players.map (fun p => (p.stack, p.allIn)) = [(0, false)]) := by
  constructor
  · intro idx amt s p hp
    refine ⟨{ p with
        stack := p.stack - min amt p.stack,
        bet := min amt p.stack,
        committed := p.committed + min amt p.stack }, ?_, rfl, rfl, rfl, rfl⟩
    unfold postBlind
    rw [hp]
  · decide

/-- C6 witness: the payment rule applied at the short-stacked big-blind
post. -/
theorem postBlind_no_allin_witness :
    ∃ p1, (postBlind 0 BIG_BLIND exC6).players = exC6.players.set 0 p1
      ∧ p1.stack = (mkP 1 0 25 true false false 0 0).stack
          - min BIG_BLIND (mkP 1 0 25 true false false 0 0).stack
      ∧ p1.bet = min BIG_BLIND (mkP 1 0 25 true false false 0 0).stack
      ∧ p1.committed = (mkP 1 0 25 true false false 0 0).committed
          + min BIG_BLIND (mkP 1 0 25 true false false 0 0).stack
      ∧ p1.allIn = (mkP 1 0 25 true false false 0 0).allIn :=
  postBlind_no_allin.1 0 BIG_BLIND exC6 (mkP 1 0 25 true false false 0 0) (by decide)

lemma find_id_cons_pos (q : Player) (t : List Player) (x : Nat) (h : q.id = x) :
    (q :: t).find? (fun p => p.id = x) = some q :=
  List.find?_cons_of_pos t (decide_eq_true h)

lemma find_id_cons_neg (q : Player) (t : List Player) (x : Nat) (h : ¬ (q.id = x)) :
    (q :: t).find? (fun p => p.id = x) = t.find? (fun p => p.id = x) :=
  List.find?_cons_of_neg t (by simpa using h)

lemma stackOfId_bump_eq :
    ∀ (ps : List Player) (a : Nat), a ∈ ps.map (fun p => p.id) →
      stackOfId (bumpStackById ps a) a = stackOfId ps a + 1 := by
  intro ps
  induction ps with
  | nil => intro a ha; simp at ha
  | cons q t ih =>
    intro a ha
    unfold bumpStackById
    rw [List.map_cons]
    by_cases hq : q.id = a
    · rw [if_pos hq]
      unfold stackOfId
      rw [find_id_cons_pos { q with stack := q.stack + 1 } _ a hq,
        find_id_cons_pos q t a hq]
      rfl
    · rw [if_neg hq]
      have hat : a ∈ t.map (fun p => p.id) := by
        rw [List.map_cons] at ha
        rcases List.mem_cons.mp ha with h | h
        · exact absurd h.symm hq
        · exact h
      unfold stackOfId
      rw [find_id_cons_neg q _ a hq, find_id_cons_neg q t a hq]
      have := ih a hat
      unfold stackOfId bumpStackById at this
      exact this

lemma stackOfId_bump_ne :
    ∀ (ps : List Player) (a x : Nat), x ≠ a →
      stackOfId (bumpStackById ps a) x = stackOfId ps x := by
  intro ps
  induction ps with
  | nil => intro a x _; rfl
  | cons q t ih =>
    intro a x hxa
    unfold bumpStackById
    rw [List.map_cons]
    by_cases hq : q.id = x
    · have hqa : ¬ (q.id = a) := fun h => hxa (hq ▸ h.symm ▸ rfl)
      rw [if_neg hqa]
      unfold stackOfId
      rw [find_id_cons_pos q _ x hq, find_id_cons_pos q t x hq]
    · by_cases hqa : q.id = a
      · rw [if_pos hqa]
        unfold stackOfId
        rw [find_id_cons_neg { q with stack := q.stack + 1 } _ x hq,
          find_id_cons_neg q t x hq]
        have := ih a x hxa
        unfold stackOfId bumpStackById at this
        exact this
      · rw [if_neg hqa]
        unfold stackOfId
        rw [find_id_cons_neg q _ x hq, find_id_cons_neg q t x hq]
        have := ih a x hxa
        unfold stackOfId bumpStackById at this
        exact this

lemma stackOfId_map_add_share :
    ∀ (ps : List Player) (W : List ResEntry) (share x : Nat),
      (W.any (fun w => w.id = x)) = true → x ∈ ps.map (fun p => p.id) →
      stackOfId (ps.map (fun p =>
          if W.any (fun w => w.id = p.id) then { p with stack := p.stack + share } else p)) x
        = stackOfId ps x + share := by
  intro ps
  induction ps with
  | nil => intro W share x _ hmem; simp at hmem
  | cons q t ih =>
    intro W share x hx hmem
    rw [List.map_cons]
    by_cases hq : q.id = x
    · have hcond : (W.any (fun w => w.id = q.id)) = true := by rw [hq]; exact hx
      rw [if_pos hcond]
      unfold stackOfId
      rw [find_id_cons_pos { q with stack := q.stack + share } _ x hq,
        find_id_cons_pos q t x hq]
      rfl
    · have hmt : x ∈ t.map (fun p => p.id) := by
        rw [List.map_cons] at hmem
        rcases List.mem_cons.mp hmem with h | h
        · exact absurd h.symm hq
        · exact h
      have htail := ih W share x hx hmt
      by_cases hcond : (W.any (fun w => w.id = q.id)) = true
      · rw [if_pos hcond]
        unfold stackOfId
        rw [find_id_cons_neg { q with stack := q.stack + share } _ x hq,
          find_id_cons_neg q t x hq]
        unfold stackOfId at htail
        exact htail
      · rw [if_neg hcond]
        unfold stackOfId
        rw [find_id_cons_neg q _ x hq, find_id_cons_neg q t x hq]
        unfold stackOfId at htail
        exact htail

lemma entry_id_ne_of_nodup (ordered : List ResEntry)
    (hnd : ((ordered.map (fun r => r.id)).Nodup)) (i j : Nat)
    (hi : i < ordered.length) (hj : j < ordered.length) (hij : i ≠ j) :
    (ordered.get ⟨i, hi⟩).id ≠ (ordered.get ⟨j, hj⟩).id := by
  intro h
  have hi2 : i < (ordered.map (fun r => r.id)).length := by simpa using hi
  have hj2 : j < (ordered.map (fun r => r.id)).length := by simpa using hj
  have hgg : (ordered.map (fun r => r.id)).get ⟨i, hi2⟩
      = (ordered.map (fun r => r.id)).get ⟨j, hj2⟩ := by
    rw [List.get_map, List.get_map]
    exact h
  have := (List.Nodup.get_inj_iff hnd).mp hgg
  exact hij (by simpa using congrArg Fin.val this)

lemma chipLoop_stackOf_miss :
    ∀ (d : Nat) (ordered : List ResEntry) (i rem : Nat) (ps : List Player) (x : Nat),
      d = rem - i → rem ≤ ordered.length →
      (∀ (k : Nat) (hk : k < ordered.length), i ≤ k → k < rem → (ordered.get ⟨k, hk⟩).id ≠ x) →
      stackOfId (chipLoop ordered i rem ps) x = stackOfId ps x := by
  intro d
  induction d with
  | zero =>
    intro ordered i rem ps x hd _ _
    have hge : ¬ i < rem := by omega
    unfold chipLoop
    rw [dif_neg hge]
  | succ d ih =>
    intro ordered i rem ps x hd hrle hmiss
    have hi : i < rem := by omega
    have hilt : i < ordered.length := by omega
    have him : i % ordered.length = i := Nat.mod_eq_of_lt hilt
    unfold chipLoop
    rw [dif_pos hi, him, List.getElem?_eq_getElem hilt]
    simp only []
    rw [ih ordered (i + 1) rem _ x (by omega) hrle
      (fun k hk hik hkr => hmiss k hk (by omega) hkr)]
    exact stackOfId_bump_ne ps _ x (fun h => hmiss i hilt (by omega) hi (h ▸ rfl))

lemma chipLoop_stackOf_hit :
    ∀ (d : Nat) (ordered : List ResEntry) (i rem : Nat) (ps : List Player)
      (j : Nat) (hj : j < ordered.length),
      d = rem - i → rem ≤ ordered.length →
      ((ordered.map (fun r => r.id)).Nodup) →
      (∀ r ∈ ordered, r.id ∈ ps.map (fun p => p.id)) →
      i ≤ j → j < rem →
      stackOfId (chipLoop ordered i rem ps) ((ordered.get ⟨j, hj⟩).id)
        = stackOfId ps ((ordered.get ⟨j, hj⟩).id) + 1 := by
  intro d
  induction d with
  | zero =>
    intro ordered i rem ps j hj hd hrle hnd hsub hij hjr
    omega
  | succ d ih =>
    intro ordered i rem ps j hj hd hrle hnd hsub hij hjr
    have hi : i < rem := by omega
    have hilt : i < ordered.length := by omega
    have him : i % ordered.length = i := Nat.mod_eq_of_lt hilt
    unfold chipLoop
    rw [dif_pos hi, him, List.getElem?_eq_getElem hilt]
    simp only []
    by_cases hji : j = i
    · subst hji
      have hgg : (ordered[j] : ResEntry) = ordered.get ⟨j, hj⟩ := rfl
      rw [chipLoop_stackOf_miss (rem - (j + 1)) ordered (j + 1) rem _ _ rfl hrle
        (fun k hk hik hkr => entry_id_ne_of_nodup ordered hnd k j hk hj (by omega))]
      rw [hgg]
      exact stackOfId_bump_eq ps _ (hsub _ (List.get_mem ordered j hj))
    · rw [ih ordered (i + 1) rem _ j hj (by omega) hrle hnd
        (fun r hr => by rw [bumpStackById_ids]; exact hsub r hr) (by omega) hjr]
      have hgg : (ordered[i] : ResEntry) = ordered.get ⟨i, hilt⟩ := rfl
      rw [hgg]
      rw [stackOfId_bump_ne ps _ _
        (entry_id_ne_of_nodup ordered hnd j i hj hilt hji)]

/-- C7: a pot with a non-empty winner set is split exactly: winners sorted
by ascending seat each gain floor(amount / winnerCount), the first
amount mod winnerCount of them one extra chip, and the stacks in total
gain exactly the pot amount. -/
theorem awardPot_split_exact (ps : List Player) (results : List ResEntry) (pot : Pot)
    (hnd : ((ps.map (fun p => p.id)).Nodup))
    (hresnd : ((results.map (fun r => r.id)).Nodup))
    (hressub : ∀ r ∈ results, r.id ∈ ps.map (fun p => p.id))
    (helig : ∃ r ∈ results, pot.eligibleIds.contains r.id = true) :
    sumStack (awardPot ps results pot) = sumStack ps + pot.amount
    ∧ ∀ (ordered : List ResEntry),
        ordered = (handWinners (results.filter (fun r => pot.eligibleIds.contains r.id))).mergeSort
          (fun a b => a.seat ≤ b.seat) →
        List.Pairwise (fun a b : ResEntry => a.seat ≤ b.seat) ordered
        ∧ ∀ (j : Nat) (hj : j < ordered.length),
            stackOfId (awardPot ps results pot) ((ordered.get ⟨j, hj⟩).id)
              = stackOfId ps ((ordered.get ⟨j, hj⟩).id)
                + pot.amount / ordered.length
                + (if j < pot.amount % ordered.length then 1 else 0) := by
  refine ⟨awardPot_sum ps results pot hnd hresnd hressub helig, ?_⟩
  intro ordered hord
  have heligne : results.filter (fun r => pot.eligibleIds.contains r.id) ≠ [] := by
    obtain ⟨r, hr, hc⟩ := helig
    intro hnil
    have : r ∈ results.filter (fun r => pot.eligibleIds.contains r.id) :=
      List.mem_filter.mpr ⟨hr, hc⟩
    rw [hnil] at this
    simp at this
  have hlenne : ¬ (results.filter (fun r => pot.eligibleIds.contains r.id)).length = 0 := by
    simpa [List.length_eq_zero] using heligne
  have hWne : handWinners (results.filter (fun r => pot.eligibleIds.contains r.id)) ≠ [] :=
    handWinners_ne_nil _ heligne
  have hWsubres : ∀ w ∈ handWinners (results.filter (fun r => pot.eligibleIds.contains r.id)),
      w ∈ results := by
    intro w hw
    unfold handWinners at hw
    exact List.mem_of_mem_filter (List.mem_of_mem_filter hw)
  have hWnd : ((handWinners (results.filter (fun r => pot.eligibleIds.contains r.id))).map
      (fun r => r.id)).Nodup := by
    unfold handWinners
    exact List.Nodup.sublist
      (List.Sublist.map _ ((List.filter_sublist _).trans (List.filter_sublist _))) hresnd
  set W := handWinners (results.filter (fun r => pot.eligibleIds.contains r.id)) with hW
  have hWlen : 0 < W.length := List.length_pos.mpr hWne
  have hpermW : ordered.Perm W := hord ▸ List.mergeSort_perm _ _
  have hlenWo : ordered.length = W.length := hpermW.length_eq
  constructor
  · have htrans : ∀ (a b c : ResEntry), decide (a.seat ≤ b.seat) = true →
        decide (b.seat ≤ c.seat) = true → decide (a.seat ≤ c.seat) = true := by
      intro a b c h1 h2
      simp only [decide_eq_true_eq] at *
      omega
    have htotal : ∀ (a b : ResEntry), (decide (a.seat ≤ b.seat) || decide (b.seat ≤ a.seat)) = true := by
      intro a b
      simp only [Bool.or_eq_true, decide_eq_true_eq]
      omega
    have hp := List.sorted_mergeSort htrans htotal W
    rw [← hord] at hp
    exact hp.imp (by intro a b h; simpa using h)
  · intro j hj
    set share := pot.amount / W.length with hshare
    have hshle : share * W.length ≤ pot.amount := Nat.div_mul_le_self _ _
    set ps2 := ps.map (fun p =>
      if W.any (fun w => w.id = p.id) then { p with stack := p.stack + share } else p) with hps2
    have hps2ids : ps2.map (fun p => p.id) = ps.map (fun p => p.id) := by
      rw [hps2, List.map_map]
      apply List.map_congr_left
      intro p _
      simp only [Function.comp_apply]
      by_cases h : (W.any (fun w => w.id = p.id)) = true
      · rw [if_pos h]
      · rw [if_neg h]
    have hondr : ((ordered.map (fun r => r.id)).Nodup) :=
      ((hpermW.map (fun r => r.id)).nodup_iff).mpr hWnd
    have hmoddef := Nat.mod_add_div pot.amount W.length
    have hremmod : pot.amount - share * W.length = pot.amount % W.length := by
      rw [hshare, Nat.mul_comm]
      omega
    have hremlt : pot.amount % W.length < W.length := Nat.mod_lt _ hWlen
    have hjmem : ordered.get ⟨j, hj⟩ ∈ W := hpermW.mem_iff.mp (List.get_mem ordered j hj)
    have hjid : (ordered.get ⟨j, hj⟩).id ∈ ps.map (fun p => p.id) :=
      hressub _ (hWsubres _ hjmem)
    have hawd : awardPot ps results pot
        = chipLoop (W.mergeSort (fun a b => a.seat ≤ b.seat)) 0 (pot.amount - share * W.length) ps2 := by
      unfold awardPot
      rw [if_neg hlenne]
    rw [hawd, ← hord]
    have hsub2 : ∀ r ∈ ordered, r.id ∈ ps2.map (fun p => p.id) := by
      intro r hr
      rw [hps2ids]
      exact hressub r (hWsubres r (hpermW.mem_iff.mp hr))
    have hrle : pot.amount - share * W.length ≤ ordered.length := by
      rw [hlenWo, hremmod]
      omega
    have hstep2 : stackOfId ps2 ((ordered.get ⟨j, hj⟩).id)
        = stackOfId ps ((ordered.get ⟨j, hj⟩).id) + share := by
      rw [hps2]
      apply stackOfId_map_add_share ps W share _ _ hjid
      exact List.any_eq_true.mpr ⟨_, hjmem, decide_eq_true rfl⟩
    by_cases hjrem : j < pot.amount % W.length
    · rw [chipLoop_stackOf_hit ((pot.amount - share * W.length) - 0) ordered 0 _ ps2 j hj rfl
        hrle hondr hsub2 (Nat.zero_le j) (by rw [hremmod]; exact hjrem)]
      rw [hstep2]
      rw [if_pos (show j < pot.amount % ordered.length from by rw [hlenWo]; exact hjrem)]
      rw [hshare, ← hlenWo]
    · rw [chipLoop_stackOf_miss ((pot.amount - share * W.length) - 0) ordered 0 _ _ _ rfl hrle
        (fun k hk h0k hkr => entry_id_ne_of_nodup ordered hondr k j hk hj (by omega))]
      rw [hstep2]
      rw [if_neg (show ¬ (j < pot.amount % ordered.length) from by rw [hlenWo]; exact hjrem)]
      rw [hshare, ← hlenWo]
      omega

/-- C7 witness: the indivisible 101-chip pot with two tied winners adds
exactly 101 chips to the stacks. -/
theorem awardPot_split_exact_witness :
    sumStack (awardPot exC7ps exC7res exC7pot) = sumStack exC7ps + 101 :=
  (awardPot_split_exact exC7ps exC7res exC7pot (by decide) (by decide) (by decide)
    ⟨⟨1, 0, 5⟩, by decide, by decide⟩).1

/-- C8 counterexample: a start-hand request with a single seated player is
rejected, yet it still resets the seat's hand-scoped fields, so the table
state does change. -/
theorem startHand_mutates_below_two : startHand [] exC8 ≠ exC8 := by decide

/-- C8 (amended): the action guards — unknown socket, a seat other than
the current actor, a folded or out-of-hand actor, a check while facing a
bet — drop the event with no state change at all; a start-hand request
with fewer than two seats starts nothing, but it does first reset the
hand-scoped seat fields of every seat. -/
theorem invalid_events_guarded :
    (∀ (f : List Nat → Nat) (s : Table) (sid : Nat) (a : Action),
        playerIndexBySocket s.players sid = none → handleAction f s sid a = s)
    ∧ (∀ (f : List Nat → Nat) (s : Table) (sid : Nat) (a : Action) (idx : Nat),
        playerIndexBySocket s.players sid = some idx →
        (idx : Int) ≠ s.currentPlayerIdx → handleAction f s sid a = s)
    ∧ (∀ (f : List Nat → Nat) (s : Table) (sid : Nat) (a : Action) (idx : Nat) (p : Player),
        playerIndexBySocket s.players sid = some idx →
        s.players[idx]? = some p →
        (p.inHand && !p.folded) = false → handleAction f s sid a = s)
    ∧ (∀ (f : List Nat → Nat) (s : Table) (sid : Nat) (idx : Nat) (p : Player),
        playerIndexBySocket s.players sid = some idx →
        s.players[idx]? = some p →
        maxBetOf s.players - p.bet ≠ 0 → handleAction f s sid Action.check = s)
    ∧ (∀ (d : List Nat) (s : Table), s.players.length < 2 →
        startHand d s = { s with players := s.players.map resetSeatFields }) := by
  refine ⟨?_, ?_, ?_, ?_, ?_⟩
  · intro f s sid a hnone
    unfold handleAction
    rw [hnone]
  · intro f s sid a idx hidx hne
    unfold handleAction
    rw [hidx]
    simp only []
    rw [if_pos hne]
  · intro f s sid a idx p hidx hp hpf
    unfold handleAction
    rw [hidx]
    simp only []
    by_cases hne : (idx : Int) ≠ s.currentPlayerIdx
    · rw [if_pos hne]
    · rw [if_neg hne, hp]
      simp only []
      rw [if_pos (show (!(p.inHand && !p.folded)) = true from by rw [hpf]; rfl)]
  · intro f s sid idx p hidx hp htc
    unfold handleAction
    rw [hidx]
    simp only []
    by_cases hne : (idx : Int) ≠ s.currentPlayerIdx
    · rw [if_pos hne]
    · rw [if_neg hne, hp]
      simp only []
      by_cases hact : (!(p.inHand && !p.folded)) = true
      · rw [if_pos hact]
      · rw [if_neg hact]
        rw [if_neg htc]
  · intro d s hlt
    unfold startHand
    simp only []
    rw [if_pos (show (s.players.map resetSeatFields).length < 2 from by
      rw [List.length_map]; exact hlt)]

/-- C8 witness: a fold request from the non-acting seat is a strict no-op,
and the rejected single-seat start-hand request equals exactly the
seat-field reset. -/
theorem invalid_events_guarded_witness :
    handleAction str0 exC2 2 Action.fold = exC2
    ∧ startHand [] exC8 = { exC8 with players := exC8.players.map resetSeatFields } := by
  constructor
  · exact invalid_events_guarded.2.1 str0 exC2 2 Action.fold 1 (by decide) (by decide)
  · exact invalid_events_guarded.2.2.2.2 [] exC8 (by decide)

lemma currentPlayerIdOf_cards (s : Table) (j : Nat) (cs : List Nat) :
    currentPlayerIdOf { s with players := s.players.mapIdx (fun i p => if i = j then { p with cards := cs } else p) } = currentPlayerIdOf s := by
  unfold currentPlayerIdOf
  simp only []
  by_cases h0 : 0 ≤ s.currentPlayerIdx
  · rw [if_pos h0, if_pos h0, List.getElem?_mapIdx]
    cases hmi : s.players[s.currentPlayerIdx.toNat]? with
    | none => rfl
    | some p =>
      simp only [Option.map_some']
      by_cases hij : s.currentPlayerIdx.toNat = j
      · rw [if_pos hij]
      · rw [if_neg hij]
  · rw [if_neg h0, if_neg h0]

lemma others_views_cards (s : Table) (j : Nat) (cs : List Nat) (idx : Nat) :
    ((s.players.mapIdx (fun i p => if i = j then { p with cards := cs } else p)).mapIdx
        (fun i p => (⟨p.id, p.name, p.seat, p.stack, p.inHand && !p.folded, p.bet,
          decide (i = idx)⟩ : OtherView)))
      = s.players.mapIdx (fun i p => ⟨p.id, p.name, p.seat, p.stack, p.inHand && !p.folded,
          p.bet, decide (i = idx)⟩) := by
  apply List.ext_getElem?
  intro n
  rw [List.getElem?_mapIdx, List.getElem?_mapIdx, List.getElem?_mapIdx, Option.map_map]
  cases hmn : s.players[n]? with
  | none => rfl
  | some p =>
    simp only [Option.map_some', Function.comp_apply]
    by_cases hnj : n = j
    · rw [if_pos hnj]
    · rw [if_neg hnj]

/-- C9: the outbound projection for a seat shows that seat its own hole
cards, while the records for the other seats carry no cards at all:
changing another seat's hole cards leaves the projection identical
(noninterference). -/
theorem sanitize_no_card_leak :
    (∀ (s : Table) (i : Nat) (me : Player), s.players[i]? = some me →
        ∃ v, sanitizeForPlayer s i = some v ∧ v.me.cards = me.cards)
    ∧ (∀ (s : Table) (j : Nat) (cs : List Nat) (i : Nat), j ≠ i →
        sanitizeForPlayer (withCards s j cs) i = sanitizeForPlayer s i) := by
  constructor
  · intro s i me hme
    unfold sanitizeForPlayer
    rw [hme]
    exact ⟨_, rfl, rfl⟩
  · intro s j cs i hji
    unfold sanitizeForPlayer withCards
    simp only []
    rw [List.getElem?_mapIdx]
    cases hmi : s.players[i]? with
    | none => rfl
    | some me =>
      simp only [Option.map_some']
      rw [if_neg (show ¬ (i = j) from fun h => hji h.symm)]
      rw [currentPlayerIdOf_cards, others_views_cards]

/-- C9 witness: replacing seat 1's hole cards does not change seat 0's
projection, and seat 0 sees its own cards. -/
theorem sanitize_no_card_leak_witness :
    sanitizeForPlayer (withCards exC2 1 [99]) 0 = sanitizeForPlayer exC2 0
    ∧ ∃ v, sanitizeForPlayer exC2 0 = some v
        ∧ v.me.cards = (mkP 1 0 475 true false false 25 25).cards := by
  constructor
  · exact sanitize_no_card_leak.2 exC2 1 [99] 0 (by decide)
  · exact sanitize_no_card_leak.1 exC2 0 (mkP 1 0 475 true false false 25 25) (by decide)

/-- C10: an applied bet or raise sets minRaiseTo to
max(max(previous minRaiseTo, big blind), requested amount) — the raw
requested raise-to — regardless of the clamped payment; concretely, a
30-chip stack raising to 500 over a 50 bet goes all-in for 30 yet leaves
minRaiseTo at 500. -/
theorem minRaiseTo_raw_request :
    (∀ (f : List Nat → Nat) (s : Table) (sid amount : Nat) (idx : Nat) (p : Player),
        playerIndexBySocket s.players sid = some idx →
        ¬ ((idx : Int) ≠ s.currentPlayerIdx) →
        s.players[idx]? = some p →
        (p.inHand && !p.folded) = true →
        (handleAction f s sid (Action.bet amount)).minRaiseTo
            = max (max s.minRaiseTo BIG_BLIND) amount
        ∧ (handleAction f s sid (Action.raise amount)).minRaiseTo
            = max (max s.minRaiseTo BIG_BLIND) amount)
    ∧ (handleAction str0 exC10 1 (Action.raise 500)).minRaiseTo = 500
    ∧ stackOfId (handleAction str0 exC10 1 (Action.raise 500)).players 1 = 0 := by
  refine ⟨?_, by decide, by decide⟩
  intro f s sid amount idx p hidx hcur hp hact
  constructor
  · unfold handleAction
    rw [hidx]
    simp only []
    rw [if_neg hcur, hp]
    simp only []
    rw [if_neg (show ¬ ((!(p.inHand && !p.folded)) = true) from by rw [hact]; simp)]
  · unfold handleAction
    rw [hidx]
    simp only []
    rw [if_neg hcur, hp]
    simp only []
    rw [if_neg (show ¬ ((!(p.inHand && !p.folded)) = true) from by rw [hact]; simp)]

/-- C10 witness: the raw-request rule applied at the concrete short-stack
raise. -/
theorem minRaiseTo_raw_request_witness :
    (handleAction str0 exC10 1 (Action.bet 500)).minRaiseTo = 500 :=
  ((minRaiseTo_raw_request.1 str0 exC10 1 500 0 (mkP 1 0 30 true false false 0 0)
    (by decide) (by decide) (by decide) (by decide)).1).trans (by decide)

end PokerGame
